import Mathlib

/-!
Verification development for the liteorm schema-aware query layer
(src/src/collection.ts): a shallow embedding of the condition compiler
(_parseCond / _parseCondBasic), the type transform registry, the CRUD
statement builders, the DDL synthesis, and the row decoding paths
(_loadData, Chain.transformRow), together with theorems that settle the
frozen claims about them.

The repository's src/ holds only collection.ts; the helpers it imports
from utils.ts (safeId, safeColumnName, AliasToSqliteType) are not part of
the sources and are modelled from the spec where marked.
-/

set_option maxHeartbeats 1000000

namespace LiteOrm

/-! ### Decimal rendering of numbers (used for minted parameter names and
for values a JS template literal stringifies) -/

def digitChar (d : Nat) : Char := Char.ofNat (48 + d)

def digitVal (c : Char) : Nat := c.toNat - 48

/-- Big-endian decimal digits, structurally recursive on a fuel bound so
that concrete renderings reduce in the kernel. -/
def natCharsAux : Nat → Nat → List Char
  | 0, _ => []
  | fuel + 1, n =>
    if n = 0 then [] else natCharsAux fuel (n / 10) ++ [digitChar (n % 10)]

def natChars (n : Nat) : List Char :=
  if n = 0 then ['0'] else natCharsAux n n

theorem natCharsAux_eq : ∀ fuel n, n ≤ fuel →
    natCharsAux fuel n = (Nat.digits 10 n).reverse.map digitChar := by
  intro fuel
  induction fuel with
  | zero =>
    intro n hn
    have : n = 0 := by omega
    subst this
    simp [natCharsAux]
  | succ f ih =>
    intro n hn
    by_cases h : n = 0
    · subst h
      simp [natCharsAux]
    · have hdiv : n / 10 ≤ f := by
        have := Nat.div_lt_self (Nat.pos_of_ne_zero h) (by norm_num : (1 : Nat) < 10)
        omega
      rw [show natCharsAux (f + 1) n =
        natCharsAux f (n / 10) ++ [digitChar (n % 10)] by simp [natCharsAux, h]]
      rw [ih (n / 10) hdiv]
      rw [Nat.digits_def' (by norm_num : (1 : Nat) < 10) (Nat.pos_of_ne_zero h)]
      simp

theorem natChars_eq_digits {n : Nat} (h : n ≠ 0) :
    natChars n = (Nat.digits 10 n).reverse.map digitChar := by
  unfold natChars
  rw [if_neg h]
  exact natCharsAux_eq n n (le_refl n)

def natStr (n : Nat) : String := String.mk (natChars n)

def intStr (n : Int) : String :=
  if n < 0 then "-" ++ natStr n.natAbs else natStr n.natAbs

/-- Modelled from the spec: safeId (utils.ts, absent from src/) mints "a
fresh random identifier-safe token per bound value, never reusing tokens"
(spec 4.1).  We model the never-reused supply as a counter threaded through
compilation; the n-th token is "p" ++ decimal n, and the code prefixes the
engine's "$" sigil at each use site. -/
def mkParam (n : Nat) : String := "$p" ++ natStr n

theorem digitVal_digitChar {d : Nat} (h : d < 10) : digitVal (digitChar d) = d := by
  interval_cases d <;> decide

theorem map_digitVal_digitChar {l : List Nat} (h : ∀ x ∈ l, x < 10) :
    (l.map digitChar).map digitVal = l := by
  rw [List.map_map]
  induction l with
  | nil => rfl
  | cons a l ih =>
    simp only [List.map_cons, List.cons.injEq]
    exact ⟨digitVal_digitChar (h a (by simp)), ih (fun x hx => h x (by simp [hx]))⟩

theorem digits_rev_lt {n : Nat} : ∀ x ∈ (Nat.digits 10 n).reverse, x < 10 :=
  fun x hx => Nat.digits_lt_base (by norm_num) (List.mem_reverse.mp hx)

theorem natChars_eq_zero_case {n : Nat} (h : natChars n = ['0']) : n = 0 := by
  by_cases hn : n = 0
  · exact hn
  · exfalso
    rw [natChars_eq_digits hn] at h
    have h2 := congrArg (List.map digitVal) h
    rw [map_digitVal_digitChar digits_rev_lt] at h2
    have h3 : Nat.digits 10 n = [0] := by
      have h4 := congrArg List.reverse h2
      rw [List.reverse_reverse] at h4
      rw [h4]
      decide
    have h5 := Nat.ofDigits_digits 10 n
    rw [h3] at h5
    simp [Nat.ofDigits] at h5
    exact hn h5.symm

theorem natChars_inj : Function.Injective natChars := by
  intro m n h
  by_cases hm : m = 0 <;> by_cases hn : n = 0
  · rw [hm, hn]
  · exfalso
    rw [hm] at h
    exact hn (natChars_eq_zero_case h.symm)
  · exfalso
    rw [hn] at h
    exact hm (natChars_eq_zero_case h)
  · rw [natChars_eq_digits hm, natChars_eq_digits hn] at h
    have h2 := congrArg (List.map digitVal) h
    rw [map_digitVal_digitChar digits_rev_lt, map_digitVal_digitChar digits_rev_lt] at h2
    have h3 := congrArg List.reverse h2
    rw [List.reverse_reverse, List.reverse_reverse] at h3
    calc m = Nat.ofDigits 10 (Nat.digits 10 m) := (Nat.ofDigits_digits 10 m).symm
    _ = Nat.ofDigits 10 (Nat.digits 10 n) := by rw [h3]
    _ = n := Nat.ofDigits_digits 10 n

theorem mkParam_inj : Function.Injective mkParam := by
  intro m n h
  unfold mkParam natStr at h
  have h2 : ("$p".data ++ natChars m) = ("$p".data ++ natChars n) := by
    have := congrArg String.data h
    simpa [String.data_append] using this
  exact natChars_inj (List.append_cancel_left h2)

/-! ### JavaScript-ish strings: join, split, substring search, quote escaping -/

/-- Array.prototype.join(sep) on already-stringified pieces. -/
def sepJoin (sep : String) : List String → String
  | [] => ""
  | [s] => s
  | s :: rest => s ++ sep ++ sepJoin sep rest

/-- Whether needle occurs as a contiguous substring of hay (over char lists). -/
def containsSub (needle hay : List Char) : Bool :=
  hay.tails.any (fun t => needle.isPrefixOf t)

def containsStr (needle hay : String) : Bool := containsSub needle.data hay.data

/-- String.prototype.split(sep) for a single separator character. -/
def consHd (c : Char) : List (List Char) → List (List Char)
  | [] => [[c]]
  | h :: t => (c :: h) :: t

def splitOn1 (sep : Char) : List Char → List (List Char)
  | [] => [[]]
  | c :: rest => if c = sep then [] :: splitOn1 sep rest else consHd c (splitOn1 sep rest)

/-- String.prototype.split('__'): leftmost-first scan for the two-character
separator, exactly as the engine does. -/
def splitUU : List Char → List (List Char)
  | [] => [[]]
  | '_' :: '_' :: rest => [] :: splitUU rest
  | c :: rest => consHd c (splitUU rest)

/-- .replace(of a quote, with bracket-quote-bracket), the escaping
collection.ts applies to string-typed column defaults (line 161). -/
def escapeQuote (s : String) : String :=
  String.mk (s.data.flatMap (fun c => if c = '\'' then ['[', '\'', ']'] else [c]))

/-! ### The JavaScript value model

Filters, entries and rows in collection.ts are untyped JS values.  `JSVal`
models the values that reach this layer: null/undefined (merged: both are
falsy and neither carries data the code distinguishes except via the
=== undefined checks, which the embedding models with Option), booleans,
numbers (integral: the claims exercise no fractional arithmetic), strings,
Date objects (by their epoch-millisecond value), arrays, plain objects
(insertion-ordered fields, unique keys). -/

inductive JSVal where
  | null : JSVal
  | bool (b : Bool) : JSVal
  | num (n : Int) : JSVal
  | str (s : String) : JSVal
  | date (ms : Int) : JSVal
  | arr (xs : List JSVal) : JSVal
  | obj (fs : List (String × JSVal)) : JSVal

/-- JS truthiness: false, 0, the empty string, null/undefined are falsy;
every object (dates, arrays, plain objects) is truthy. -/
def truthy : JSVal → Bool
  | .null => false
  | .bool b => b
  | .num n => n != 0
  | .str s => s != ""
  | .date _ => true
  | .arr _ => true
  | .obj _ => true

/-- First-match association lookup (JS objects cannot repeat keys). -/
def assocFind (k : String) : List (String × JSVal) → Option JSVal
  | [] => none
  | (k', v) :: rest => if k' = k then some v else assocFind k rest

/-- JS property access q.k: none models undefined.  On non-objects the code
paths under proof only ever access properties of object-shaped filters
(JS would yield undefined for arrays/strings without such a key, and throw
on null, which no claim exercises). -/
def jsGet (q : JSVal) (k : String) : Option JSVal :=
  match q with
  | .obj fs => assocFind k fs
  | _ => none

def truthyO : Option JSVal → Bool
  | none => false
  | some v => truthy v

/-- Object.entries: fields of an object, index/char pairs for arrays and
strings, empty for primitives. -/
def jsEntries : JSVal → List (String × JSVal)
  | .obj fs => fs
  | .arr xs => (xs.enum.map (fun p => (natStr p.1, p.2)))
  | .str s => (s.data.enum.map (fun p => (natStr p.1, JSVal.str (String.mk [p.2]))))
  | _ => []

mutual
/-- String(x) / template-literal coercion.  Date rendering is
engine/locale-defined; it is modelled injectively by the epoch value (no
claim depends on its exact text). -/
def jsToString : JSVal → String
  | .null => "null"
  | .bool b => if b then "true" else "false"
  | .num n => intStr n
  | .str s => s
  | .date ms => "Date(" ++ intStr ms ++ ")"
  | .arr xs => sepJoin "," (jsToStringElems xs)
  | .obj _ => "[object Object]"

/-- Array elements under join: null/undefined render as the empty string. -/
def jsToStringElems : List JSVal → List String
  | [] => []
  | .null :: xs => "" :: jsToStringElems xs
  | x :: xs => jsToString x :: jsToStringElems xs
end

/-! ### Platform JSON codec

Modelled from the spec: the JSON transform stores "the serialized document"
as text and decoding is "exact for any serializable value" (spec 4.2).
JSON.stringify / JSON.parse are platform primitives, not repository code,
so the concrete text format is modelled: a tagged prefix code over the
document (a length-prefixed rendering rather than quoted/escaped JSON
syntax, which changes only the text's shape, not the codec's exactness).
Dates are not plain documents: stringify renders a Date as its ISO mirror
string, which parses back as a string, so documents containing Date values
are excluded from `serializable` (they are intentionally lossy). -/

def intChars (n : Int) : List Char :=
  if n < 0 then '-' :: natChars n.natAbs else natChars n.natAbs

inductive JTok where
  | tnull : JTok
  | tbool (b : Bool) : JTok
  | tnum (n : Int) : JTok
  | tstr (s : String) : JTok
  | tarr (k : Nat) : JTok
  | tobj (k : Nat) : JTok

mutual
def jflat : JSVal → List JTok
  | .null => [.tnull]
  | .bool b => [.tbool b]
  | .num n => [.tnum n]
  | .str s => [.tstr s]
  | .date ms => [.tstr ("ISO:" ++ intStr ms)]
  | .arr xs => .tarr xs.length :: jflatList xs
  | .obj fs => .tobj fs.length :: jflatFields fs
def jflatList : List JSVal → List JTok
  | [] => []
  | x :: xs => jflat x ++ jflatList xs
def jflatFields : List (String × JSVal) → List JTok
  | [] => []
  | (k, v) :: fs => .tstr k :: (jflat v ++ jflatFields fs)
end

mutual
def serializable : JSVal → Bool
  | .null => true
  | .bool _ => true
  | .num _ => true
  | .str _ => true
  | .date _ => false
  | .arr xs => serializableList xs
  | .obj fs => serializableFields fs
def serializableList : List JSVal → Bool
  | [] => true
  | x :: xs => serializable x && serializableList xs
def serializableFields : List (String × JSVal) → Bool
  | [] => true
  | (_, v) :: fs => serializable v && serializableFields fs
end

mutual
def jsize : JSVal → Nat
  | .null => 1
  | .bool _ => 1
  | .num _ => 1
  | .str _ => 1
  | .date _ => 1
  | .arr xs => 1 + jsizeList xs
  | .obj fs => 1 + jsizeFields fs
def jsizeList : List JSVal → Nat
  | [] => 1
  | x :: xs => jsize x + jsizeList xs
def jsizeFields : List (String × JSVal) → Nat
  | [] => 1
  | (_, v) :: fs => 1 + jsize v + jsizeFields fs
end

mutual
def jparse : Nat → List JTok → Option (JSVal × List JTok)
  | 0, _ => none
  | _ + 1, [] => none
  | fuel + 1, t :: ts =>
    match t with
    | .tnull => some (.null, ts)
    | .tbool b => some (.bool b, ts)
    | .tnum n => some (.num n, ts)
    | .tstr s => some (.str s, ts)
    | .tarr k => (jparseList fuel k ts).map (fun p => (.arr p.1, p.2))
    | .tobj k => (jparseFields fuel k ts).map (fun p => (.obj p.1, p.2))
def jparseList : Nat → Nat → List JTok → Option (List JSVal × List JTok)
  | 0, _, _ => none
  | _ + 1, 0, ts => some ([], ts)
  | fuel + 1, k + 1, ts =>
    (jparse fuel ts).bind (fun p =>
      (jparseList fuel k p.2).map (fun q => (p.1 :: q.1, q.2)))
def jparseFields : Nat → Nat → List JTok → Option (List (String × JSVal) × List JTok)
  | 0, _, _ => none
  | _ + 1, 0, ts => some ([], ts)
  | fuel + 1, k + 1, (.tstr key) :: ts =>
    (jparse fuel ts).bind (fun p =>
      (jparseFields fuel k p.2).map (fun q => ((key, p.1) :: q.1, q.2)))
  | _ + 1, _ + 1, _ => none
end

theorem jsize_pos (v : JSVal) : 1 ≤ jsize v := by cases v <;> simp [jsize]

theorem jsizeList_pos (xs : List JSVal) : 1 ≤ jsizeList xs := by
  cases xs with
  | nil => simp [jsizeList]
  | cons x xs => have := jsize_pos x; simp [jsizeList]; omega

theorem jsizeFields_pos (fs : List (String × JSVal)) : 1 ≤ jsizeFields fs := by
  cases fs with
  | nil => simp [jsizeFields]
  | cons kv fs => obtain ⟨k, v⟩ := kv; simp [jsizeFields]; omega

/-- Token-level inversion: parsing the flattening of a serializable document
returns the document, given enough fuel. -/
theorem jparse_inv : ∀ fuel : Nat,
    (∀ v rest, serializable v = true → jsize v ≤ fuel →
      jparse fuel (jflat v ++ rest) = some (v, rest)) ∧
    (∀ xs rest, serializableList xs = true → jsizeList xs ≤ fuel →
      jparseList fuel xs.length (jflatList xs ++ rest) = some (xs, rest)) ∧
    (∀ fs rest, serializableFields fs = true → jsizeFields fs ≤ fuel →
      jparseFields fuel fs.length (jflatFields fs ++ rest) = some (fs, rest)) := by
  intro fuel
  induction fuel with
  | zero =>
    refine ⟨fun v rest _ h => absurd h ?_, fun xs rest _ h => absurd h ?_,
      fun fs rest _ h => absurd h ?_⟩
    · have := jsize_pos v; omega
    · have := jsizeList_pos xs; omega
    · have := jsizeFields_pos fs; omega
  | succ f ih =>
    obtain ⟨ihv, ihl, ihf⟩ := ih
    refine ⟨?_, ?_, ?_⟩
    · intro v rest hs hsz
      cases v with
      | null => simp [jflat, jparse]
      | bool b => simp [jflat, jparse]
      | num n => simp [jflat, jparse]
      | str s => simp [jflat, jparse]
      | date ms => simp [serializable] at hs
      | arr xs =>
        simp only [jflat, List.cons_append, jparse]
        rw [ihl xs rest (by simpa [serializable] using hs)
          (by simp only [jsize] at hsz; omega)]
        rfl
      | obj fs =>
        simp only [jflat, List.cons_append, jparse]
        rw [ihf fs rest (by simpa [serializable] using hs)
          (by simp only [jsize] at hsz; omega)]
        rfl
    · intro xs rest hs hsz
      cases xs with
      | nil => simp [jflatList, jparseList]
      | cons x xs =>
        simp only [serializableList, Bool.and_eq_true] at hs
        simp only [jsizeList] at hsz
        have h1 := jsizeList_pos xs
        have h2 := jsize_pos x
        simp only [jflatList, List.length_cons, List.append_assoc, List.append_eq,
          jparseList]
        rw [ihv x _ hs.1 (by omega)]
        simp only [Option.some_bind]
        rw [ihl xs rest hs.2 (by omega)]
        rfl
    · intro fs rest hs hsz
      cases fs with
      | nil => simp [jflatFields, jparseFields]
      | cons kv fs =>
        obtain ⟨k, v⟩ := kv
        simp only [serializableFields, Bool.and_eq_true] at hs
        simp only [jsizeFields] at hsz
        have h1 := jsizeFields_pos fs
        have h2 := jsize_pos v
        simp only [jflatFields, List.length_cons, List.cons_append, List.append_assoc,
          List.append_eq, jparseFields]
        rw [ihv v _ hs.1 (by omega)]
        simp only [Option.some_bind]
        rw [ihf fs rest hs.2 (by omega)]
        rfl

/-! Text layer of the modelled JSON codec: tokens to characters and back. -/

def tokChars : JTok → List Char
  | .tnull => ['n']
  | .tbool true => ['t']
  | .tbool false => ['f']
  | .tnum n =>
    if n < 0 then 'j' :: (natChars n.natAbs ++ [';'])
    else 'i' :: (natChars n.natAbs ++ [';'])
  | .tstr s => 's' :: (natChars s.data.length ++ ';' :: s.data)
  | .tarr k => 'a' :: (natChars k ++ [';'])
  | .tobj k => 'o' :: (natChars k ++ [';'])

def toksChars : List JTok → List Char
  | [] => []
  | t :: ts => tokChars t ++ toksChars ts

/-- Read a decimal run terminated by a semicolon. -/
def readNum (cs : List Char) : Option (Nat × List Char) :=
  match cs.dropWhile Char.isDigit with
  | ';' :: rest =>
    some (Nat.ofDigits 10 (((cs.takeWhile Char.isDigit).map digitVal).reverse), rest)
  | _ => none

def charsToks (fuel : Nat) (cs : List Char) : Option (List JTok) :=
  match fuel, cs with
  | _, [] => some []
  | 0, _ :: _ => none
  | f + 1, c :: cs =>
    if c = 'n' then (charsToks f cs).map (fun ts => .tnull :: ts)
    else if c = 't' then (charsToks f cs).map (fun ts => .tbool true :: ts)
    else if c = 'f' then (charsToks f cs).map (fun ts => .tbool false :: ts)
    else if c = 'i' then (readNum cs).bind (fun p =>
        (charsToks f p.2).map (fun ts => .tnum ((p.1 : Int)) :: ts))
    else if c = 'j' then (readNum cs).bind (fun p =>
        (charsToks f p.2).map (fun ts => .tnum (-(p.1 : Int)) :: ts))
    else if c = 's' then
      (readNum cs).bind (fun p =>
        (charsToks f (p.2.drop p.1)).map (fun ts => .tstr (String.mk (p.2.take p.1)) :: ts))
    else if c = 'a' then (readNum cs).bind (fun p =>
        (charsToks f p.2).map (fun ts => .tarr p.1 :: ts))
    else if c = 'o' then (readNum cs).bind (fun p =>
        (charsToks f p.2).map (fun ts => .tobj p.1 :: ts))
    else none

theorem natChars_digits {n : Nat} : ∀ c ∈ natChars n, c.isDigit = true := by
  intro c hc
  by_cases h : n = 0
  · unfold natChars at hc
    rw [if_pos h] at hc
    simp at hc
    rw [hc]
    decide
  · rw [natChars_eq_digits h] at hc
    simp only [List.mem_map] at hc
    obtain ⟨d, hd, rfl⟩ := hc
    have h10 : d < 10 := Nat.digits_lt_base (by norm_num) (List.mem_reverse.mp hd)
    interval_cases d <;> decide

theorem takeWhile_append_stop {p : Char → Bool} {l₁ : List Char} {c₀ : Char}
    {t : List Char} (h : ∀ c ∈ l₁, p c = true) (h2 : p c₀ = false) :
    (l₁ ++ c₀ :: t).takeWhile p = l₁ ∧ (l₁ ++ c₀ :: t).dropWhile p = c₀ :: t := by
  induction l₁ with
  | nil => simp [List.takeWhile, List.dropWhile, h2]
  | cons c l ih =>
    have hc := h c (by simp)
    have ih2 := ih (fun x hx => h x (by simp [hx]))
    simp [List.takeWhile, List.dropWhile, hc, ih2.1, ih2.2]

theorem natChars_value {n : Nat} :
    Nat.ofDigits 10 (((natChars n).map digitVal).reverse) = n := by
  by_cases h : n = 0
  · subst h
    decide
  · rw [natChars_eq_digits h, map_digitVal_digitChar digits_rev_lt,
      List.reverse_reverse]
    exact Nat.ofDigits_digits 10 n

theorem readNum_natChars {n : Nat} {rest : List Char} :
    readNum (natChars n ++ ';' :: rest) = some (n, rest) := by
  have h := @takeWhile_append_stop Char.isDigit (natChars n) ';'
    rest natChars_digits (by decide)
  unfold readNum
  rw [h.2, h.1]
  simp [natChars_value]

theorem natChars_ne_nil (n : Nat) : natChars n ≠ [] := by
  by_cases h : n = 0
  · unfold natChars
    rw [if_pos h]
    simp
  · rw [natChars_eq_digits h]
    simp only [ne_eq, List.map_eq_nil_iff, List.reverse_eq_nil_iff]
    exact Nat.digits_ne_nil_iff_ne_zero.mpr h

theorem toksChars_length_ge : ∀ ts : List JTok, ts.length ≤ (toksChars ts).length := by
  intro ts
  induction ts with
  | nil => simp [toksChars]
  | cons t ts ih =>
    have h : 1 ≤ (tokChars t).length := by
      cases t with
      | tbool b => cases b <;> simp [tokChars]
      | tnum n => by_cases hn : n < 0 <;> simp [tokChars, hn]
      | _ => simp [tokChars]
    simp only [toksChars, List.length_cons, List.length_append]
    omega

theorem charsToks_inv : ∀ ts : List JTok, ∀ f, ts.length ≤ f →
    charsToks f (toksChars ts) = some ts := by
  intro ts
  induction ts with
  | nil => intro f _; cases f <;> rfl
  | cons t ts ih =>
    intro f hf
    cases f with
    | zero => simp at hf
    | succ f =>
      have ihf : charsToks f (toksChars ts) = some ts := ih f (by simp at hf; omega)
      cases t with
      | tnull => simp [toksChars, tokChars, charsToks, ihf]
      | tbool b => cases b <;> simp [toksChars, tokChars, charsToks, ihf]
      | tnum n =>
        by_cases hn : n < 0
        · have hshape : toksChars (JTok.tnum n :: ts) =
              'j' :: (natChars n.natAbs ++ ';' :: toksChars ts) := by
            simp [toksChars, tokChars, if_pos hn]
          rw [hshape]
          simp only [charsToks]
          rw [if_neg (by decide), if_neg (by decide), if_neg (by decide),
            if_neg (by decide), if_pos trivial]
          rw [readNum_natChars]
          simp only [Option.some_bind, ihf]
          have hval : -((n.natAbs : Nat) : Int) = n := by omega
          rw [hval]
          rfl
        · have hshape : toksChars (JTok.tnum n :: ts) =
              'i' :: (natChars n.natAbs ++ ';' :: toksChars ts) := by
            simp [toksChars, tokChars, if_neg hn]
          rw [hshape]
          simp only [charsToks]
          rw [if_neg (by decide), if_neg (by decide), if_neg (by decide), if_pos trivial]
          rw [readNum_natChars]
          simp only [Option.some_bind, ihf]
          have hval : ((n.natAbs : Nat) : Int) = n := by omega
          rw [hval]
          rfl
      | tstr s =>
        have hshape : toksChars (JTok.tstr s :: ts) =
            's' :: (natChars s.data.length ++ ';' :: (s.data ++ toksChars ts)) := by
          simp [toksChars, tokChars]
        rw [hshape]
        simp only [charsToks]
        rw [if_neg (by decide), if_neg (by decide), if_neg (by decide),
          if_neg (by decide), if_neg (by decide), if_pos trivial]
        rw [readNum_natChars]
        simp only [Option.some_bind]
        rw [List.take_left' rfl, List.drop_left' rfl]
        simp only [ihf]
        rfl
      | tarr k =>
        have hshape : toksChars (JTok.tarr k :: ts) =
            'a' :: (natChars k ++ ';' :: toksChars ts) := by
          simp [toksChars, tokChars]
        rw [hshape]
        simp only [charsToks]
        rw [if_neg (by decide), if_neg (by decide), if_neg (by decide),
          if_neg (by decide), if_neg (by decide), if_neg (by decide), if_pos trivial]
        rw [readNum_natChars]
        simp [ihf]
      | tobj k =>
        have hshape : toksChars (JTok.tobj k :: ts) =
            'o' :: (natChars k ++ ';' :: toksChars ts) := by
          simp [toksChars, tokChars]
        rw [hshape]
        simp only [charsToks]
        rw [if_neg (by decide), if_neg (by decide), if_neg (by decide),
          if_neg (by decide), if_neg (by decide), if_neg (by decide),
          if_neg (by decide), if_pos trivial]
        rw [readNum_natChars]
        simp [ihf]

/-! A strong induction principle for the nested JSVal inductive, used by the
structural proofs below. -/

theorem JSVal.strongRec (P : JSVal → Prop) (PL : List JSVal → Prop)
    (PF : List (String × JSVal) → Prop)
    (hnull : P .null) (hbool : ∀ b, P (.bool b)) (hnum : ∀ n, P (.num n))
    (hstr : ∀ s, P (.str s)) (hdate : ∀ m, P (.date m))
    (harr : ∀ xs, PL xs → P (.arr xs)) (hobj : ∀ fs, PF fs → P (.obj fs))
    (hnil : PL []) (hcons : ∀ x xs, P x → PL xs → PL (x :: xs))
    (hfnil : PF []) (hfcons : ∀ k v fs, P v → PF fs → PF ((k, v) :: fs)) :
    (∀ v, P v) ∧ (∀ xs, PL xs) ∧ (∀ fs, PF fs) := by
  have key : ∀ N : Nat, (∀ v : JSVal, sizeOf v ≤ N → P v) ∧
      (∀ xs : List JSVal, sizeOf xs ≤ N → PL xs) ∧
      (∀ fs : List (String × JSVal), sizeOf fs ≤ N → PF fs) := by
    intro N
    induction N with
    | zero =>
      refine ⟨fun v hv => absurd hv ?_, fun xs hxs => absurd hxs ?_,
        fun fs hfs => absurd hfs ?_⟩
      · cases v <;> simp
      · cases xs <;> simp
      · cases fs <;> simp
    | succ N ih =>
      obtain ⟨ihv, ihl, ihf⟩ := ih
      refine ⟨?_, ?_, ?_⟩
      · intro v hv
        cases v with
        | null => exact hnull
        | bool b => exact hbool b
        | num n => exact hnum n
        | str s => exact hstr s
        | date m => exact hdate m
        | arr xs => exact harr xs (ihl xs (by simp at hv; omega))
        | obj fs => exact hobj fs (ihf fs (by simp at hv; omega))
      · intro xs hxs
        cases xs with
        | nil => exact hnil
        | cons x t =>
          exact hcons x t (ihv x (by simp at hxs; omega))
            (ihl t (by simp at hxs; omega))
      · intro fs hfs
        cases fs with
        | nil => exact hfnil
        | cons kv t =>
          obtain ⟨k, v⟩ := kv
          exact hfcons k v t (ihv v (by simp at hfs; omega))
            (ihf t (by simp at hfs; omega))
  exact ⟨fun v => (key (sizeOf v)).1 v le_rfl, fun xs => (key (sizeOf xs)).2.1 xs le_rfl,
    fun fs => (key (sizeOf fs)).2.2 fs le_rfl⟩

theorem jsize_le_two_flat :
    (∀ v : JSVal, jsize v ≤ 2 * (jflat v).length) ∧
    (∀ xs : List JSVal, jsizeList xs ≤ 2 * (jflatList xs).length + 1) ∧
    (∀ fs : List (String × JSVal), jsizeFields fs ≤ 2 * (jflatFields fs).length + 1) := by
  refine JSVal.strongRec _ _ _ ?_ ?_ ?_ ?_ ?_ ?_ ?_ ?_ ?_ ?_ ?_
  · simp [jsize, jflat]
  · intro b; simp [jsize, jflat]
  · intro n; simp [jsize, jflat]
  · intro s; simp [jsize, jflat]
  · intro m; simp [jsize, jflat]
  · intro xs h; simp only [jsize, jflat, List.length_cons]; omega
  · intro fs h; simp only [jsize, jflat, List.length_cons]; omega
  · simp [jsizeList, jflatList]
  · intro x xs h1 h2
    simp only [jsizeList, jflatList, List.length_append]
    omega
  · simp [jsizeFields, jflatFields]
  · intro k v fs h1 h2
    simp only [jsizeFields, jflatFields, List.length_cons, List.length_append]
    omega

/-! The modelled platform codec, as the transform registry calls it. -/

def jsonStringifyL (v : JSVal) : List Char := toksChars (jflat v)

def jsonStringify (v : JSVal) : String := String.mk (jsonStringifyL v)

def jsonParseL (cs : List Char) : JSVal :=
  match charsToks cs.length cs with
  | some ts =>
    match jparse (2 * ts.length + 1) ts with
    | some (v, []) => v
    | _ => .null
  | none => .null

def jsonParse (s : String) : JSVal := jsonParseL s.data

theorem jsonParse_stringify {v : JSVal} (hs : serializable v = true) :
    jsonParse (jsonStringify v) = v := by
  have h0 : charsToks (toksChars (jflat v)).length (toksChars (jflat v)) =
      some (jflat v) := charsToks_inv (jflat v) _ (toksChars_length_ge _)
  have h1 : jparse (2 * (jflat v).length + 1) (jflat v ++ []) = some (v, []) :=
    (jparse_inv _).1 v [] hs (by have := jsize_le_two_flat.1 v; omega)
  rw [List.append_nil] at h1
  show jsonParseL (toksChars (jflat v)) = v
  unfold jsonParseL
  rw [h0]
  simp only [h1]

/-! ### Type Transform Registry (collection.ts lines 105-125)

Each codec is translated clause by clause from the transform object built in
the Collection constructor. -/

/-- Date.get (line 107): typeof repr is number ? new Date(repr) : null. -/
def dateGet : JSVal → JSVal
  | .num n => .date n
  | _ => .null

/-- Date.set (line 108): d ? (d instanceof Date ? +d : +new Date(d)) : null.
+new Date(n) on a number n is n; a truthy string goes through engine date
parsing, which no claim exercises (modelled as null). -/
def dateSet (d : JSVal) : JSVal :=
  if truthy d then
    match d with
    | .date ms => .num ms
    | .num n => .num n
    | _ => .null
  else .null

/-- JSON.set (line 112): data ? JSON.stringify(data) : null. -/
def jsonSet (d : JSVal) : JSVal :=
  if truthy d then .str (jsonStringify d) else .null

/-- JSON.get (line 111): repr ? JSON.parse(repr) : null.  JSON.parse of a
primitive coerces it through String first and yields the primitive back;
array/object reprs would throw (unexercised: the stored repr is text). -/
def jsonGet (repr : JSVal) : JSVal :=
  if truthy repr then
    match repr with
    | .str s => jsonParse s
    | v => v
  else .null

/-- StringArray.set (line 119): d ? unit-sep + d.join(unit-sep) + unit-sep
: null.  join stringifies elements, rendering null/undefined as "". -/
def strArraySet (d : JSVal) : JSVal :=
  if truthy d then
    match d with
    | .arr xs => .str ("\x1f" ++ sepJoin "\x1f" (jsToStringElems xs) ++ "\x1f")
    | _ => .null
  else .null

/-- StringArray.get (lines 115-118): strip the first and last character
(substr(1, length-2)); if the remainder is non-empty split it on the
unit separator, else null. -/
def strArrayGet : JSVal → JSVal
  | .str s =>
    if s = "" then .null
    else
      match (s.data.drop 1).dropLast with
      | [] => .null
      | inner => .arr ((splitOn1 '\x1f' inner).map (fun cs => JSVal.str (String.mk cs)))
  | _ => .null

/-- Boolean.get (line 122): typeof repr is number ? repr !== 0 : null. -/
def boolGet : JSVal → JSVal
  | .num n => .bool (n != 0)
  | _ => .null

/-- Boolean.set (line 123): typeof d is boolean ? Number(d) : null. -/
def boolSet : JSVal → JSVal
  | .bool b => .num (if b then 1 else 0)
  | _ => .null

/-- The transform registry keyed by extended type name (its four keys are
exactly Date, JSON, StringArray, Boolean): the get direction. -/
def extGet (t : String) (v : JSVal) : Option JSVal :=
  match t with
  | "Date" => some (dateGet v)
  | "JSON" => some (jsonGet v)
  | "StringArray" => some (strArrayGet v)
  | "Boolean" => some (boolGet v)
  | _ => none

/-- The transform registry: the set direction. -/
def extSet (t : String) (v : JSVal) : Option JSVal :=
  match t with
  | "Date" => some (dateSet v)
  | "JSON" => some (jsonSet v)
  | "StringArray" => some (strArraySet v)
  | "Boolean" => some (boolSet v)
  | _ => none

/-! Split/join inversion for the string-set codec. -/

theorem splitOn1_no_sep {sep : Char} : ∀ {cs : List Char}, sep ∉ cs →
    splitOn1 sep cs = [cs]
  | [], _ => rfl
  | c :: rest, h => by
    have hc : ¬(c = sep) := fun hh => h (by rw [hh]; simp)
    have ih := @splitOn1_no_sep sep rest (fun hh => h (by simp [hh]))
    simp [splitOn1, hc, ih, consHd]

theorem splitOn1_piece {sep : Char} : ∀ {x t : List Char}, sep ∉ x →
    splitOn1 sep (x ++ sep :: t) = x :: splitOn1 sep t
  | [], t, _ => by simp [splitOn1]
  | c :: x', t, h => by
    have hc : ¬(c = sep) := fun hh => h (by rw [hh]; simp)
    have ih := @splitOn1_piece sep x' t
      (fun hh => h (by simp [hh]))
    simp [splitOn1, hc, ih, consHd]

theorem splitOn1_intercalate {sep : Char} : ∀ {xs : List (List Char)}, xs ≠ [] →
    (∀ piece ∈ xs, sep ∉ piece) →
    splitOn1 sep (List.intercalate [sep] xs) = xs
  | [], h, _ => absurd rfl h
  | [x], _, hp => by
    rw [show List.intercalate [sep] [x] = x by simp [List.intercalate]]
    exact splitOn1_no_sep (hp x (by simp))
  | x :: y :: xs, _, hp => by
    have ih := @splitOn1_intercalate sep (y :: xs) (by simp)
      (fun p hpp => hp p (List.mem_cons_of_mem _ hpp))
    have hx : sep ∉ x := hp x (by simp)
    rw [show List.intercalate [sep] (x :: y :: xs) =
      x ++ sep :: List.intercalate [sep] (y :: xs) by
        simp [List.intercalate, List.intersperse]]
    rw [splitOn1_piece hx, ih]

theorem jsToStringElems_strs : ∀ xs : List String,
    jsToStringElems (xs.map JSVal.str) = xs
  | [] => by simp [jsToStringElems]
  | s :: xs => by
    have ih := jsToStringElems_strs xs
    simp [jsToStringElems, jsToString, ih]

theorem sepJoin_data {sep : Char} : ∀ xs : List String,
    (sepJoin (String.mk [sep]) xs).data = List.intercalate [sep] (xs.map String.data)
  | [] => by simp [sepJoin, List.intercalate]
  | [s] => by simp [sepJoin, List.intercalate]
  | s :: y :: t => by
    have ih := @sepJoin_data sep (y :: t)
    rw [show List.intercalate [sep] ((s :: y :: t).map String.data) =
      s.data ++ sep :: List.intercalate [sep] ((y :: t).map String.data) by
        simp [List.intercalate, List.intersperse]]
    rw [show sepJoin (String.mk [sep]) (s :: y :: t) =
      s ++ String.mk [sep] ++ sepJoin (String.mk [sep]) (y :: t) from rfl]
    simp only [String.data_append, ih]
    simp

theorem tokChars_len (t : JTok) : 1 ≤ (tokChars t).length := by
  cases t with
  | tbool b => cases b <;> simp [tokChars]
  | tnum n => by_cases hn : n < 0 <;> simp [tokChars, hn]
  | _ => simp [tokChars]

theorem jflat_ne_nil (v : JSVal) : jflat v ≠ [] := by
  cases v <;> simp [jflat]

theorem jsonStringify_ne_empty (v : JSVal) : jsonStringify v ≠ "" := by
  intro h
  have hd : toksChars (jflat v) = [] := congrArg String.data h
  obtain ⟨t, ts, ht⟩ : ∃ t ts, jflat v = t :: ts := by
    cases hf : jflat v with
    | nil => exact absurd hf (jflat_ne_nil v)
    | cons t ts => exact ⟨t, ts, rfl⟩
  rw [ht] at hd
  have h1 := tokChars_len t
  have h2 := congrArg List.length hd
  simp only [toksChars, List.length_append, List.length_nil] at h2
  omega

/-- Round trip for the timestamp codec: exact at millisecond precision. -/
theorem date_roundtrip (ms : Int) : dateGet (dateSet (.date ms)) = .date ms := by
  simp [dateSet, dateGet, truthy]

/-- Round trip for the boolean codec: exact. -/
theorem bool_roundtrip (b : Bool) : boolGet (boolSet (.bool b)) = .bool b := by
  cases b <;> rfl

/-- Round trip for the JSON codec on truthy serializable documents. -/
theorem json_roundtrip {v : JSVal} (ht : truthy v = true)
    (hs : serializable v = true) : jsonGet (jsonSet v) = v := by
  unfold jsonSet
  rw [if_pos ht]
  unfold jsonGet
  rw [if_pos (by
    show truthy (.str (jsonStringify v)) = true
    simp [truthy, jsonStringify_ne_empty v])]
  exact jsonParse_stringify hs

/-- Round trip for the string-set codec: holds when no member contains the
unit separator and the joined representation is non-empty. -/
theorem strArray_roundtrip {xs : List String} (hne : xs ≠ [])
    (hsep : ∀ s ∈ xs, '\x1f' ∉ s.data)
    (hjoin : List.intercalate ['\x1f'] (xs.map String.data) ≠ []) :
    strArrayGet (strArraySet (.arr (xs.map JSVal.str))) = .arr (xs.map JSVal.str) := by
  have hset : strArraySet (.arr (xs.map JSVal.str)) =
      .str ("\x1f" ++ sepJoin "\x1f" xs ++ "\x1f") := by
    simp [strArraySet, truthy, jsToStringElems_strs]
  rw [hset]
  have hdata : ("\x1f" ++ sepJoin "\x1f" xs ++ "\x1f").data =
      '\x1f' :: (List.intercalate ['\x1f'] (xs.map String.data) ++ ['\x1f']) := by
    rw [show ("\x1f" : String) = String.mk ['\x1f'] from rfl]
    simp only [String.data_append, sepJoin_data]
    simp
  have hne2 : ("\x1f" ++ sepJoin "\x1f" xs ++ "\x1f") ≠ "" := by
    intro h
    have h2 := congrArg String.data h
    rw [hdata] at h2
    simp at h2
  obtain ⟨c, t, hct⟩ : ∃ c t, List.intercalate ['\x1f'] (xs.map String.data) = c :: t := by
    cases h : List.intercalate ['\x1f'] (xs.map String.data) with
    | nil => exact absurd h hjoin
    | cons c t => exact ⟨c, t, rfl⟩
  rw [hct] at hdata
  have hsplit : splitOn1 '\x1f' (c :: t) = xs.map String.data := by
    rw [← hct]
    exact splitOn1_intercalate (by simpa using hne)
      (by intro p hp
          simp only [List.mem_map] at hp
          obtain ⟨s, hs, rfl⟩ := hp
          exact hsep s hs)
  simp only [strArrayGet, if_neg hne2, hdata, List.drop_succ_cons, List.drop_zero,
    List.dropLast_concat]
  simp only [hsplit, List.map_map]
  congr 1

/-! ### Schema metadata

The collection metadata the compiler and codecs consume.  The shape follows
ISqliteMeta/IPropRow (decorators.ts, outside src/), restricted to the
fields collection.ts reads. -/

/-- A declared column default: a literal (string/number/boolean), a
computed function (which registers a create hook and emits no SQL default),
or any other value, pushed through the column type's codec. -/
inductive DefaultVal where
  | str (s : String) : DefaultVal
  | num (n : Int) : DefaultVal
  | boolv (b : Bool) : DefaultVal
  | func : DefaultVal
  | val (v : JSVal) : DefaultVal

/-- One column descriptor (IPropRow).  dflt mirrors the source's field
named default. -/
structure PropRow where
  type : Option String := none
  unique : Bool := false
  null : Bool := false
  index : Bool := false
  references : Option String := none
  dflt : Option DefaultVal := none

/-- Per-table metadata as the compiler sees it: the table name and the prop
map.  A prop entry may be undefined (createdAt/updatedAt when disabled),
hence Option. -/
structure TableMeta where
  name : String
  props : List (String × Option PropRow)

/-- Modelled from the spec: safeColumnName (utils.ts, absent from src/)
implements Identifier Safety: "identifiers colliding with that engine's
reserved-word list (a fixed, enumerable set) are double-quoted" (spec 6).
The list below stands for that fixed set; the claims do not depend on its
exact contents. -/
def sqliteReservedWords : List String :=
  ["abort", "add", "all", "alter", "and", "as", "asc", "between", "by",
   "case", "check", "collate", "column", "commit", "create", "default",
   "delete", "desc", "distinct", "drop", "else", "end", "foreign",
   "from", "group", "having", "in", "index", "insert", "into", "is", "join",
   "key", "like", "limit", "not", "null", "offset", "on", "or", "order",
   "primary", "references", "select", "set", "table", "then", "to",
   "transaction", "union", "unique", "update", "values", "when", "where"]

def safeColumnName (s : String) : String :=
  if sqliteReservedWords.contains s then "\"" ++ s ++ "\"" else s

/-- strArrayCols for one collection (lines 751-757): safe-quoted
StringArray prop names plus their table__field aliases. -/
def strArrayColsOf (c : TableMeta) : List String :=
  let fs := (c.props.filter (fun p => match p.2 with
    | some pr => pr.type == some "StringArray"
    | none => false)).map Prod.fst
  fs.map safeColumnName ++ fs.map (fun f => c.name ++ "__" ++ f)

/-- strArrayCols (lines 750-758), reduced over all known collections. -/
def strArrayCols (cols : List TableMeta) : List String :=
  (cols.map strArrayColsOf).foldl (fun prev c => prev ++ c) []

/-! ### The condition compiler (_parseCondBasic, lines 729-907)

The param map is the insertion-ordered entry list of the JS object;
Object.assign merges append (all minted keys are fresh - proved below). -/

/-- The compiled statement/parameter pair (ISql). -/
structure ISql where
  statement : String
  params : List (String × JSVal)

/-- doDefault (lines 740-748): delimiter-bounded LIKE for string-set
columns, plain equality otherwise; the value is bound at the minted id
either way. -/
def doDefault (sac : List String) (k : String) (v : JSVal) (id : String) :
    List String × List (String × JSVal) :=
  if sac.contains k then
    ([k ++ " LIKE '%\x1f'||" ++ id ++ "||'\x1f%'"], [(id, v)])
  else
    ([k ++ " = " ++ id], [(id, v)])

/-- The reduce at lines 786/813: one fresh parameter per element, in
order. -/
def mintParams : List JSVal → Nat → List (String × JSVal) × Nat
  | [], n => ([], n)
  | x :: xs, n =>
    let r := mintParams xs (n + 1)
    ((mkParam n, x) :: r.1, r.2)

/-- The per-element LIKE clauses for string-set columns (lines 779-783 and
806-810): one fresh parameter and one clause per element. -/
def mintLikes (k : String) : List JSVal → Nat → List String × List (String × JSVal) × Nat
  | [], n => ([], [], n)
  | x :: xs, n =>
    let r := mintLikes k xs (n + 1)
    ((k ++ " LIKE '%\x1f'||" ++ mkParam n ++ "||'\x1f%'") :: r.1,
     (mkParam n, x) :: r.2.1, r.2.2)

/-- The key rewrite (lines 762-767): a dotted key becomes a json_extract
projection; otherwise the key passes through Identifier Safety. -/
def condKey (k0 : String) : String :=
  if k0.data.contains '.' then
    let kn := splitOn1 '.' k0.data
    "json_extract(" ++ safeColumnName (String.mk kn.headI) ++ ", '$." ++
      safeColumnName (sepJoin "." ((kn.drop 1).map String.mk)) ++ "')"
  else safeColumnName k0

/-- The single-operand operator dispatch (lines 843-894).  The operand was
already normalized at line 798, so the Date arm of the object-operand
normalization (lines 844-847) is unreachable from _parseCondBasic; it is
embedded faithfully nonetheless.  The default arm (doDefault) binds v, the
entire operator object. -/
def opNormalize (k : String) (v1 : JSVal) : String × JSVal :=
  if truthy v1 then
    match v1 with
    | .date ms => ("json_extract(" ++ k ++ ", '$.$milli')", .num ms)
    | .obj fs => (k, .str (jsonStringify (.obj fs)))
    | .arr xs => (k, .str (jsonStringify (.arr xs)))
    | w => (k, w)
  else (k, v1)

def opClause (sac : List String) (k : String) (v : JSVal) (id : String)
    (op : Option String) (v1 : JSVal) (n : Nat) :
    List String × List (String × JSVal) × Nat :=
  match op with
  | some "$like" =>
    ([(opNormalize k v1).1 ++ " LIKE " ++ id], [(id, (opNormalize k v1).2)], n)
  | some "$nlike" =>
    ([(opNormalize k v1).1 ++ " NOT LIKE " ++ id], [(id, (opNormalize k v1).2)], n)
  | some "$substr" =>
    ([(opNormalize k v1).1 ++ " LIKE '%'||" ++ id ++ "||'%'"],
     [(id, (opNormalize k v1).2)], n)
  | some "$nsubstr" =>
    ([(opNormalize k v1).1 ++ " NOT LIKE '%'||" ++ id ++ "||'%'"],
     [(id, (opNormalize k v1).2)], n)
  | some "$exists" =>
    ([(opNormalize k v1).1 ++ " IS " ++
      (if truthy (opNormalize k v1).2 then "NOT NULL" else "NULL")], [], n)
  | some "$gt" =>
    ([(opNormalize k v1).1 ++ " > " ++ id], [(id, (opNormalize k v1).2)], n)
  | some "$gte" =>
    ([(opNormalize k v1).1 ++ " >= " ++ id], [(id, (opNormalize k v1).2)], n)
  | some "$lt" =>
    ([(opNormalize k v1).1 ++ " < " ++ id], [(id, (opNormalize k v1).2)], n)
  | some "$lte" =>
    ([(opNormalize k v1).1 ++ " <= " ++ id], [(id, (opNormalize k v1).2)], n)
  | some "$ne" =>
    ([(opNormalize k v1).1 ++ " != " ++ id], [(id, (opNormalize k v1).2)], n)
  | _ =>
    ((doDefault sac k v id).1, (doDefault sac k v id).2, n)

/-- Line 770-772 and 798-800: a Date value is converted to its epoch
number before any further dispatch. -/
def dateToNum : JSVal → JSVal
  | .date ms => .num ms
  | w => w

/-- v[Object.keys(v)[0]]: the first field's value, undefined (null) for the
empty object. -/
def headVal (fs : List (String × JSVal)) : JSVal :=
  match fs.head? with
  | some p => p.2
  | none => .null

/-- One iteration of the _parseCondBasic field loop (lines 760-900):
the clauses pushed, the params bound, and the advanced token counter.
The id minted at line 774 is spent only on the scalar/operator paths; the
sequence branches mint their own fresh ids. -/
def basicEntry (sac : List String) (k0 : String) (v0 : JSVal) (n : Nat) :
    List String × List (String × JSVal) × Nat :=
  if truthy (dateToNum v0) then
    match dateToNum v0 with
    | .arr xs =>
      if sac.contains (condKey k0) then
        -- lines 778-783
        (["(" ++ sepJoin " AND " (mintLikes (condKey k0) xs (n + 1)).1 ++ ")"],
         (mintLikes (condKey k0) xs (n + 1)).2.1,
         (mintLikes (condKey k0) xs (n + 1)).2.2)
      else if xs.length > 1 then
        -- lines 785-788
        ([condKey k0 ++ " IN (" ++
            sepJoin "," ((mintParams xs (n + 1)).1.map Prod.fst) ++ ")"],
         (mintParams xs (n + 1)).1, (mintParams xs (n + 1)).2)
      else if xs.length == 1 then
        -- lines 789-793
        ([condKey k0 ++ " = " ++ mkParam (n + 1)],
         [(mkParam (n + 1), xs.headD JSVal.null)], n + 2)
      else
        -- the empty sequence matches neither length test: nothing is pushed
        ([], [], n + 1)
    | .obj fs =>
      -- lines 795-900: operator-object dispatch on the first key
      match dateToNum (headVal fs), fs.head?.map Prod.fst with
      | .arr ys, some opn =>
        if opn = "$in" then
          -- lines 804-823
          if sac.contains (condKey k0) then
            (["(" ++ sepJoin " OR " (mintLikes (condKey k0) ys (n + 1)).1 ++ ")"],
             (mintLikes (condKey k0) ys (n + 1)).2.1,
             (mintLikes (condKey k0) ys (n + 1)).2.2)
          else if ys.length > 1 then
            ([condKey k0 ++ " IN (" ++
                sepJoin "," ((mintParams ys (n + 1)).1.map Prod.fst) ++ ")"],
             (mintParams ys (n + 1)).1, (mintParams ys (n + 1)).2)
          else if ys.length == 1 then
            ([condKey k0 ++ " = " ++ mkParam (n + 1)],
             [(mkParam (n + 1), ys.headD JSVal.null)], n + 2)
          else ([], [], n + 1)
        else if opn = "$nin" then
          -- lines 824-835; the else arm covers both singleton and empty
          if ys.length > 1 then
            ([condKey k0 ++ " NOT IN (" ++
                sepJoin "," ((mintParams ys (n + 1)).1.map Prod.fst) ++ ")"],
             (mintParams ys (n + 1)).1, (mintParams ys (n + 1)).2)
          else
            ([condKey k0 ++ " != " ++ mkParam (n + 1)],
             [(mkParam (n + 1), ys.headD JSVal.null)], n + 2)
        else
          opClause sac (condKey k0) (dateToNum v0) (mkParam n) (some opn)
            (.arr ys) (n + 1)
      | w, op => opClause sac (condKey k0) (dateToNum v0) (mkParam n) op w (n + 1)
    | _ =>
      -- a truthy scalar (lines 895-897)
      ((doDefault sac (condKey k0) (dateToNum v0) (mkParam n)).1,
       (doDefault sac (condKey k0) (dateToNum v0) (mkParam n)).2, n + 1)
  else
    -- a falsy value (lines 898-900)
    ((doDefault sac (condKey k0) (dateToNum v0) (mkParam n)).1,
     (doDefault sac (condKey k0) (dateToNum v0) (mkParam n)).2, n + 1)

/-- The field loop over all entries, threading the counter. -/
def basicEntries (sac : List String) : List (String × JSVal) → Nat →
    List String × List (String × JSVal) × Nat
  | [], n => ([], [], n)
  | (k, v) :: rest, n =>
    let r := basicEntry sac k v n
    let r2 := basicEntries sac rest r.2.2
    (r.1 ++ r2.1, r.2.1 ++ r2.2.1, r2.2.2)

/-- _parseCondBasic (lines 729-907). -/
def parseCondBasic (cols : List TableMeta) (cond : JSVal) (n : Nat) : ISql × Nat :=
  if truthyO (jsGet cond "$statement") then
    -- lines 730-735: the raw escape hatch ($params defaults to empty)
    (⟨jsToString ((jsGet cond "$statement").getD JSVal.null),
      match jsGet cond "$params" with
      | some v => if truthy v then jsEntries v else []
      | none => []⟩, n)
  else
    let r := basicEntries (strArrayCols cols) (jsEntries cond) n
    (⟨if sepJoin " AND " r.1 = "" then "TRUE" else sepJoin " AND " r.1, r.2.1⟩,
     r.2.2)

theorem assocFind_sizeOf {k : String} : ∀ {fs : List (String × JSVal)} {v : JSVal},
    assocFind k fs = some v → sizeOf v < sizeOf fs
  | [], _, h => by simp [assocFind] at h
  | (k', w) :: rest, v, h => by
    unfold assocFind at h
    split at h
    · cases h
      simp
      omega
    · have := @assocFind_sizeOf k rest v h
      simp
      omega

theorem jsGet_sizeOf {q : JSVal} {k : String} {v : JSVal} (h : jsGet q k = some v) :
    sizeOf v < sizeOf q := by
  unfold jsGet at h
  split at h
  · rename_i fs
    have := assocFind_sizeOf h
    simp
    omega
  · cases h

mutual
/-- _parseCond (lines 687-727): raw escape hatch, then the $or / $and
combinators (grouped and joined), then the flat-conjunction base case
(parenthesized). -/
def parseCond (cols : List TableMeta) (q : JSVal) (n : Nat) : ISql × Nat :=
  if truthyO (jsGet q "$statement") then
    (⟨jsToString ((jsGet q "$statement").getD JSVal.null),
      match jsGet q "$params" with
      | some v => if truthy v then jsEntries v else []
      | none => []⟩, n)
  else
    match h : jsGet q "$or" with
    | some (.arr xs) =>
      let r := parseCondList cols xs n
      (⟨"(" ++ sepJoin " OR " (r.1.map ISql.statement) ++ ")",
        (r.1.map ISql.params).flatten⟩, r.2)
    | _ =>
      match h2 : jsGet q "$and" with
      | some (.arr ys) =>
        let r := parseCondList cols ys n
        (⟨"(" ++ sepJoin " AND " (r.1.map ISql.statement) ++ ")",
          (r.1.map ISql.params).flatten⟩, r.2)
      | _ =>
        let r := parseCondBasic cols q n
        (⟨"(" ++ r.1.statement ++ ")", r.1.params⟩, r.2)
termination_by sizeOf q
decreasing_by
  · have h1 := jsGet_sizeOf h
    simp at h1 ⊢
    omega
  · have h1 := jsGet_sizeOf h2
    simp at h1 ⊢
    omega

/-- The recursive sibling compilations of a $or/$and group, in order, with
the counter threaded left to right. -/
def parseCondList (cols : List TableMeta) (xs : List JSVal) (n : Nat) :
    List ISql × Nat :=
  match xs with
  | [] => ([], n)
  | x :: rest =>
    let r := parseCond cols x n
    let r2 := parseCondList cols rest r.2
    (r.1 :: r2.1, r2.2)
termination_by sizeOf xs
decreasing_by
  all_goals simp
  all_goals omega
end

mutual
/-- Whether a filter stays clear of the raw {$statement} escape hatch at
every level the compiler recurses into (spec 4.1 step 1 transfers safety
to the caller on that path). -/
def noRawV (q : JSVal) : Bool :=
  !truthyO (jsGet q "$statement") &&
    (match h : jsGet q "$or" with
     | some (.arr xs) => noRawL xs
     | _ =>
       match h2 : jsGet q "$and" with
       | some (.arr ys) => noRawL ys
       | _ => true)
termination_by sizeOf q
decreasing_by
  · have h1 := jsGet_sizeOf h
    simp at h1 ⊢
    omega
  · have h1 := jsGet_sizeOf h2
    simp at h1 ⊢
    omega

def noRawL (xs : List JSVal) : Bool :=
  match xs with
  | [] => true
  | x :: rest => noRawV x && noRawL rest
termination_by sizeOf xs
decreasing_by
  all_goals simp
  all_goals omega
end

mutual
/-- Class-preserving payload erasure: every scalar payload is replaced by a
canonical representative of the same truthiness class; keys, operator
names, sequence lengths and Date-ness are preserved.  The compiled
statement text may depend only on what erasure keeps. -/
def eraseVal : JSVal → JSVal
  | .null => .null
  | .bool b => .bool b
  | .num n => .num (if n = 0 then 0 else 1)
  | .str s => .str (String.mk (s.data.map (fun _ => 'v')))
  | .date ms => .date (if ms = 0 then 0 else 1)
  | .arr xs => .arr (eraseL xs)
  | .obj fs => .obj (eraseF fs)
def eraseL : List JSVal → List JSVal
  | [] => []
  | x :: xs => eraseVal x :: eraseL xs
def eraseF : List (String × JSVal) → List (String × JSVal)
  | [] => []
  | (k, v) :: fs => (k, eraseVal v) :: eraseF fs
end

/-! ### CRUD statement builders (create / update / delete / find) -/

/-- Generic first-match association lookup. -/
def lookupFirst {α : Type} (k : String) : List (String × α) → Option α
  | [] => none
  | (k', v) :: rest => if k' = k then some v else lookupFirst k rest

/-- prop && prop.type: the declared extended/native type of a column, when
its prop row exists. -/
def propType (meta : TableMeta) (k : String) : Option String :=
  match lookupFirst k meta.props with
  | some (some pr) => pr.type
  | _ => none

/-- The encode step of create/transformEntry (lines 276-283): a field whose
prop has a registered transform is encoded; everything else passes
through. -/
def encodeField (meta : TableMeta) (k : String) (v : JSVal) : JSVal :=
  match propType meta k with
  | some t =>
    match extSet t v with
    | some w => w
    | none => v
  | none => v

/-- The create loop (lines 276-287): bracketed column names and the fresh
named parameter per (encoded) value. -/
def createValues (meta : TableMeta) : List (String × JSVal) → Nat →
    List String × List (String × JSVal) × Nat
  | [], n => ([], [], n)
  | (k, v) :: rest, n =>
    let r := createValues meta rest (n + 1)
    (k :: r.1, (mkParam n, encodeField meta k v) :: r.2.1, r.2.2)

/-- The INSERT statement of create (lines 289-297). -/
def createSql (meta : TableMeta) (entry : List (String × JSVal))
    (postfixParts : List String) (n : Nat) : ISql × Nat :=
  let r := createValues meta entry n
  (⟨sepJoin " " (["INSERT INTO " ++ safeColumnName meta.name,
      "(" ++ sepJoin "," (r.1.map safeColumnName) ++ ")",
      "VALUES (" ++ sepJoin "," (r.2.1.map Prod.fst) ++ ")"] ++ postfixParts),
    r.2.1⟩, r.2.2)

/-- The update SET loop (lines 414-428): only keys with a prop row take
part; values are encoded; each assignment binds a fresh parameter. -/
def updateSetK (meta : TableMeta) : List (String × JSVal) → Nat →
    List String × List (String × JSVal) × Nat
  | [], n => ([], [], n)
  | (k, v) :: rest, n =>
    match lookupFirst k meta.props with
    | some (some pr) =>
      let id := mkParam n
      let v2 := match pr.type with
        | some t =>
          match extSet t v with
          | some w => w
          | none => v
        | none => v
      let r := updateSetK meta rest (n + 1)
      ((k ++ " = " ++ id) :: r.1, (id, v2) :: r.2.1, r.2.2)
    | _ => updateSetK meta rest n

/-- The UPDATE statement (lines 408-441); the where object is always
truthy, so the WHERE clause is always present.  Its parameters are minted
before the SET parameters, as the code computes where first. -/
def updateSql (meta : TableMeta) (cond : JSVal) (setE : List (String × JSVal))
    (postfixParts : List String) (n : Nat) : ISql × Nat :=
  let w := parseCond [meta] cond n
  let r := updateSetK meta setE w.2
  (⟨sepJoin " " (["UPDATE " ++ safeColumnName meta.name,
      "SET " ++ sepJoin "," (r.1.map safeColumnName),
      "WHERE " ++ w.1.statement] ++ postfixParts),
    r.2.1 ++ w.1.params⟩, r.2.2)

/-- The DELETE statement (lines 466-481). -/
def deleteSql (meta : TableMeta) (cond : JSVal) (postfixParts : List String)
    (n : Nat) : ISql × Nat :=
  let w := parseCond [meta] cond n
  (⟨sepJoin " " (["DELETE FROM " ++ safeColumnName meta.name,
      "WHERE " ++ w.1.statement] ++ postfixParts), w.1.params⟩, w.2)

/-- The SELECT statement of find (lines 311-366): the sort key goes through
Identifier Safety, while limit and offset values are written into the text
(the truthiness test skips 0); the where object is always truthy so the
WHERE clause is always present; the FROM clause uses the raw table name. -/
def findSql (meta : TableMeta) (cond : JSVal) (fields : List (String × String))
    (postfix0 : Option String) (sort : Option (String × Bool))
    (limit offset : Option Int) (n : Nat) : ISql × Nat :=
  let postfixParts :=
    (match postfix0 with
     | some p => [p]
     | none => []) ++
    (match sort with
     | some (k, desc) =>
       ["ORDER BY " ++ safeColumnName k ++ " " ++ (if desc then "DESC" else "ASC")]
     | none => []) ++
    (match limit with
     | some l => if l ≠ 0 then ["LIMIT " ++ intStr l] else []
     | none => []) ++
    (match offset with
     | some o => if o ≠ 0 then ["OFFSET " ++ intStr o] else []
     | none => [])
  let w := parseCond [meta] cond n
  let selectClause :=
    if fields.length > 0 then
      fields.map (fun p => safeColumnName p.1 ++ " AS " ++ safeColumnName p.2)
    else ["*"]
  (⟨sepJoin " " (["SELECT " ++ sepJoin "," selectClause,
      "FROM " ++ meta.name,
      "WHERE " ++ w.1.statement] ++ postfixParts), w.1.params⟩, w.2)

/-! ### DDL synthesis (init, lines 148-250) -/

/-- Modelled from the spec: AliasToSqliteType (utils.ts, absent from src/)
maps logical type aliases to the engine's native storage classes (spec 3
and 4.2).  The exact image of each alias is irrelevant to the claims. -/
def aliasToSqliteType : String → Option String
  | "String" => some "TEXT"
  | "Number" => some "REAL"
  | "int" => some "INTEGER"
  | "Date" => some "INTEGER"
  | "JSON" => some "TEXT"
  | "StringArray" => some "TEXT"
  | "Boolean" => some "INTEGER"
  | _ => none

/-- getDefault (lines 154-176): string defaults are interpolated with
quote escaping; numeric and boolean defaults are interpolated as numbers;
a function default registers a pre-create hook and emits no clause; any
other default value goes through the column type's codec and the result is
interpolated via the template literal. -/
def getDefault (tp : Option String) (dflt : Option DefaultVal) : String :=
  match dflt with
  | none => ""
  | some (.str s) => "DEFAULT '" ++ escapeQuote s ++ "'"
  | some (.num m) => "DEFAULT " ++ intStr m
  | some (.boolv b) => "DEFAULT " ++ (if b then "1" else "0")
  | some .func => ""
  | some (.val jv) =>
    match tp with
    | some t =>
      match extSet t jv with
      | some nv => "DEFAULT " ++ jsToString nv
      | none => ""
    | none => ""

/-- The primary key declaration (ISqliteMeta.primary): absent, a single
column, or a composite list. -/
inductive PrimaryName where
  | pnone : PrimaryName
  | one (s : String) : PrimaryName
  | many (ss : List String) : PrimaryName

/-- String coercion of primary.name at line 182/186 (arrays join with a
comma; an absent name renders as the string undefined). -/
def primaryNameStr : PrimaryName → String
  | .pnone => "undefined"
  | .one s => s
  | .many ss => sepJoin "," ss

structure PrimaryDef where
  pname : PrimaryName := .pnone
  ptype : Option String := none
  autoincrement : Bool := false
  pdflt : Option DefaultVal := none

/-- The full metadata init consumes: the compiler-visible part plus the
primary key and composite unique declarations. -/
structure DdlMeta extends TableMeta where
  primary : PrimaryDef := {}
  uniques : List (List String) := []

/-- The column definition list of init (lines 178-217). -/
def initColDefs (m : DdlMeta) : List String :=
  (match m.primary.ptype with
   | some pt =>
     [sepJoin " " [safeColumnName (primaryNameStr m.primary.pname),
        (aliasToSqliteType pt).getD "INTEGER",
        "PRIMARY KEY",
        if m.primary.autoincrement then "AUTOINCREMENT" else "",
        getDefault m.primary.ptype m.primary.pdflt]]
   | none => []) ++
  (m.props.filterMap (fun p =>
    match p.2 with
    | some pr =>
      match pr.type with
      | some t => some (sepJoin " " [safeColumnName p.1,
          (aliasToSqliteType t).getD "TEXT",
          if pr.unique then "UNIQUE" else "",
          if pr.null then "" else "NOT NULL",
          getDefault pr.type pr.dflt,
          match pr.references with
          | some r => "REFERENCES " ++ safeColumnName r
          | none => ""])
      | none => none
    | none => none)) ++
  (match m.primary.pname with
   | .many ss => ["PRIMARY KEY (" ++ sepJoin "," (ss.map safeColumnName) ++ ")"]
   | _ => []) ++
  (m.uniques.map (fun ss => "UNIQUE (" ++ sepJoin "," (ss.map safeColumnName) ++ ")"))

/-- The CREATE TABLE IF NOT EXISTS statement (lines 219-226); its params
are empty. -/
def initSql (m : DdlMeta) : ISql :=
  ⟨sepJoin " " ["CREATE TABLE IF NOT EXISTS", safeColumnName m.name,
    "(" ++ sepJoin "," (initColDefs m) ++ ")"], []⟩

/-- The per-indexed-column CREATE INDEX statement (lines 231-247). -/
def indexSql (m : DdlMeta) (k : String) : ISql :=
  ⟨sepJoin " " ["CREATE INDEX IF NOT EXISTS", k ++ "__idx", "ON",
    safeColumnName m.name, "(" ++ safeColumnName k ++ ")"], []⟩

/-! ### Row decoding (_loadData, lines 521-533; Chain.transformRow,
lines 662-684) -/

/-- One field of _loadData: decode through the registered transform when
the prop row declares one of the four extended types; otherwise the raw
value passes through unmodified. -/
def loadField (meta : TableMeta) (k : String) (v : JSVal) : JSVal :=
  match propType meta k with
  | some t =>
    match extGet t v with
    | some w => w
    | none => v
  | none => v

/-- _loadData over a whole row. -/
def loadData (meta : TableMeta) (row : List (String × JSVal)) :
    List (String × JSVal) :=
  row.map (fun p => (p.1, loadField meta p.1 p.2))

/-- JS object assignment item[r] = v: replaces in place, appends when
absent. -/
def setField (fields : List (String × JSVal)) (r : String) (v : JSVal) :
    List (String × JSVal) :=
  match fields with
  | [] => [(r, v)]
  | (k, w) :: rest => if k = r then (k, v) :: rest else (k, w) :: setField rest r v

/-- item[t] = item[t] || followed by an update of that table's map. -/
def setTable (item : List (String × List (String × JSVal))) (t : String)
    (f : List (String × JSVal) → List (String × JSVal)) :
    List (String × List (String × JSVal)) :=
  match item with
  | [] => [(t, f [])]
  | (k, flds) :: rest =>
    if k = t then (k, f flds) :: rest else (k, flds) :: setTable rest t f

/-- One entry of Chain.transformRow (lines 665-681): split the alias on the
table separator; an unknown owning table throws (reading __meta of
undefined), modelled as the error case; a known table decodes through its
transform when the column declares one, then the raw value is attached iff
the slot is still undefined. -/
def transformRowStep (cols : List TableMeta)
    (item : List (String × List (String × JSVal))) (k : String) (v : JSVal) :
    Except String (List (String × List (String × JSVal))) :=
  let parts := splitUU k.data
  let t := String.mk parts.headI
  let r := match parts.get? 1 with
    | some cs => String.mk cs
    | none => "undefined"
  match cols.find? (fun c => c.name == t) with
  | none => .error "TypeError: reading __meta of undefined"
  | some c =>
    let item1 := match propType c r with
      | some ty =>
        match extGet ty v with
        | some w => setTable item t (fun flds => setField flds r w)
        | none => item
      | none => item
    .ok (setTable item1 t (fun flds =>
      match lookupFirst r flds with
      | some _ => flds
      | none => setField flds r v))

/-- Chain.transformRow (lines 662-684). -/
def transformRow (cols : List TableMeta) (row : List (String × JSVal)) :
    Except String (List (String × List (String × JSVal))) :=
  row.foldlM (fun item p => transformRowStep cols item p.1 p.2) []

/-! ### Parameter-name freshness

Every parameter key the compiler mints lies in the half-open counter
interval consumed by that compilation step, in strictly increasing order;
intervals of siblings are disjoint, so merged maps never collide. -/

def MintedBetween (ps : List (String × JSVal)) (n n' : Nat) : Prop :=
  ∃ ms : List Nat, ps.map Prod.fst = ms.map mkParam ∧ ms.Pairwise (· < ·) ∧
    ∀ m ∈ ms, n ≤ m ∧ m < n'

theorem MintedBetween.nil {n n' : Nat} : MintedBetween [] n n' :=
  ⟨[], rfl, .nil, by simp⟩

theorem MintedBetween.single {m n n' : Nat} {v : JSVal} (h1 : n ≤ m) (h2 : m < n') :
    MintedBetween [(mkParam m, v)] n n' :=
  ⟨[m], rfl, by simp, by simp [h1, h2]⟩

theorem MintedBetween.mono {ps : List (String × JSVal)} {n₀ n₁ n₁' n₂ : Nat}
    (h : MintedBetween ps n₁ n₁') (hl : n₀ ≤ n₁) (hr : n₁' ≤ n₂) :
    MintedBetween ps n₀ n₂ := by
  obtain ⟨ms, hk, hp, hb⟩ := h
  exact ⟨ms, hk, hp, fun m hm => by have := hb m hm; omega⟩

theorem MintedBetween.append {ps₁ ps₂ : List (String × JSVal)} {n n₁ n₂ : Nat}
    (h1 : MintedBetween ps₁ n n₁) (h2 : MintedBetween ps₂ n₁ n₂)
    (hl : n ≤ n₁) (hr : n₁ ≤ n₂) :
    MintedBetween (ps₁ ++ ps₂) n n₂ := by
  obtain ⟨ms₁, hk₁, hp₁, hb₁⟩ := h1
  obtain ⟨ms₂, hk₂, hp₂, hb₂⟩ := h2
  refine ⟨ms₁ ++ ms₂, by simp [hk₁, hk₂], ?_, ?_⟩
  · rw [List.pairwise_append]
    exact ⟨hp₁, hp₂, fun a ha b hb => by
      have := hb₁ a ha
      have := hb₂ b hb
      omega⟩
  · intro m hm
    rcases List.mem_append.mp hm with h | h
    · have := hb₁ m h
      omega
    · have := hb₂ m h
      omega

theorem MintedBetween.nodup {ps : List (String × JSVal)} {n n' : Nat}
    (h : MintedBetween ps n n') : (ps.map Prod.fst).Nodup := by
  obtain ⟨ms, hk, hp, _⟩ := h
  rw [hk]
  exact List.Nodup.map mkParam_inj (hp.imp (fun h => Nat.ne_of_lt h))

theorem range1_bounds {s len m : Nat} (h : m ∈ List.range' s len) :
    s ≤ m ∧ m < s + len := by
  obtain ⟨i, hi, rfl⟩ := List.mem_range'.mp h
  omega

theorem range1_pairwise : ∀ (len s : Nat), (List.range' s len).Pairwise (· < ·)
  | 0, _ => .nil
  | len + 1, s => by
    refine List.Pairwise.cons ?_ (range1_pairwise len (s + 1))
    intro m hm
    have := range1_bounds hm
    omega

theorem mintParams_spec : ∀ (xs : List JSVal) (n : Nat),
    (mintParams xs n).1.map Prod.fst = (List.range' n xs.length).map mkParam ∧
    (mintParams xs n).1.map Prod.snd = xs ∧
    (mintParams xs n).2 = n + xs.length
  | [], n => by simp [mintParams]
  | x :: xs, n => by
    have ih := mintParams_spec xs (n + 1)
    simp only [mintParams, List.length_cons, List.map_cons, List.range'_succ]
    refine ⟨by simp [ih.1], by simp [ih.2.1], by rw [ih.2.2]; omega⟩

theorem mintParams_minted {xs : List JSVal} {nn n n' : Nat}
    (h1 : n ≤ nn) (h2 : nn + xs.length ≤ n') :
    MintedBetween (mintParams xs nn).1 n n' := by
  refine ⟨List.range' nn xs.length, (mintParams_spec xs nn).1,
    range1_pairwise _ _, ?_⟩
  intro m hm
  have := range1_bounds hm
  omega

theorem mintLikes_spec (k : String) : ∀ (xs : List JSVal) (n : Nat),
    (mintLikes k xs n).2.1.map Prod.fst = (List.range' n xs.length).map mkParam ∧
    (mintLikes k xs n).2.1.map Prod.snd = xs ∧
    (mintLikes k xs n).2.2 = n + xs.length ∧
    (mintLikes k xs n).1 =
      (List.range' n xs.length).map
        (fun m => k ++ " LIKE '%\x1f'||" ++ mkParam m ++ "||'\x1f%'")
  | [], n => by simp [mintLikes]
  | x :: xs, n => by
    have ih := mintLikes_spec k xs (n + 1)
    simp only [mintLikes, List.length_cons, List.map_cons, List.range'_succ]
    exact ⟨by simp [ih.1], by simp [ih.2.1], by rw [ih.2.2.1]; omega, by simp [ih.2.2.2]⟩

theorem mintLikes_minted {k : String} {xs : List JSVal} {nn n n' : Nat}
    (h1 : n ≤ nn) (h2 : nn + xs.length ≤ n') :
    MintedBetween (mintLikes k xs nn).2.1 n n' := by
  refine ⟨List.range' nn xs.length, (mintLikes_spec k xs nn).1,
    range1_pairwise _ _, ?_⟩
  intro m hm
  have := range1_bounds hm
  omega

theorem doDefault_minted {sac : List String} {k : String} {v : JSVal}
    {m n n' : Nat} (h1 : n ≤ m) (h2 : m < n') :
    MintedBetween (doDefault sac k v (mkParam m)).2 n n' := by
  unfold doDefault
  split
  · exact .single h1 h2
  · exact .single h1 h2

theorem opClause_minted {sac : List String} {k : String} {v v1 : JSVal}
    {op : Option String} {nn m n n' : Nat} (h1 : n ≤ m) (h2 : m < n') :
    MintedBetween (opClause sac k v (mkParam m) op v1 nn).2.1 n n' ∧
    (opClause sac k v (mkParam m) op v1 nn).2.2 = nn := by
  unfold opClause
  split
  all_goals first
  | exact ⟨.single h1 h2, rfl⟩
  | exact ⟨.nil, rfl⟩
  | exact ⟨doDefault_minted h1 h2, rfl⟩

theorem opClause_minted2 {sac : List String} {k : String} {v v1 : JSVal}
    {op : Option String} {n : Nat} :
    n ≤ (opClause sac k v (mkParam n) op v1 (n + 1)).2.2 ∧
    MintedBetween (opClause sac k v (mkParam n) op v1 (n + 1)).2.1 n
      (opClause sac k v (mkParam n) op v1 (n + 1)).2.2 := by
  have h := @opClause_minted sac k v v1 op (n + 1) n n (n + 1) (le_refl n) (by omega)
  constructor
  · rw [h.2]
    omega
  · rw [h.2]
    exact h.1

theorem basicEntry_minted (sac : List String) (k0 : String) (v0 : JSVal) (n : Nat) :
    n ≤ (basicEntry sac k0 v0 n).2.2 ∧
    MintedBetween (basicEntry sac k0 v0 n).2.1 n (basicEntry sac k0 v0 n).2.2 := by
  unfold basicEntry
  split
  · -- truthy
    split
    · -- array value
      rename_i xs heq
      split
      · -- string-set: AND of LIKEs minted from n+1
        dsimp only
        have h := (mintLikes_spec (condKey k0) xs (n + 1)).2.2.1
        constructor
        · rw [h]
          omega
        · rw [h]
          exact mintLikes_minted (by omega) (by omega)
      · split
        · -- IN
          dsimp only
          have h := (mintParams_spec xs (n + 1)).2.2
          constructor
          · rw [h]
            omega
          · rw [h]
            exact mintParams_minted (by omega) (by omega)
        · split
          · -- singleton
            dsimp only
            exact ⟨by omega, .single (by omega) (by omega)⟩
          · -- empty
            dsimp only
            exact ⟨by omega, .nil⟩
    · -- operator object
      rename_i fs heq
      split
      · -- array operand with a named op
        rename_i ys opn heqa heqb
        split
        · -- $in
          split
          · dsimp only
            have h := (mintLikes_spec (condKey k0) ys (n + 1)).2.2.1
            constructor
            · rw [h]
              omega
            · rw [h]
              exact mintLikes_minted (by omega) (by omega)
          · split
            · dsimp only
              have h := (mintParams_spec ys (n + 1)).2.2
              constructor
              · rw [h]
                omega
              · rw [h]
                exact mintParams_minted (by omega) (by omega)
            · split
              · dsimp only
                exact ⟨by omega, .single (by omega) (by omega)⟩
              · dsimp only
                exact ⟨by omega, .nil⟩
        · split
          · -- $nin
            split
            · dsimp only
              have h := (mintParams_spec ys (n + 1)).2.2
              constructor
              · rw [h]
                omega
              · rw [h]
                exact mintParams_minted (by omega) (by omega)
            · dsimp only
              exact ⟨by omega, .single (by omega) (by omega)⟩
          · -- other op over array operand
            exact opClause_minted2
      · -- non-array operand
        exact opClause_minted2
    · -- truthy scalar
      dsimp only
      exact ⟨by omega, doDefault_minted (le_refl n) (by omega)⟩
  · -- falsy
    dsimp only
    exact ⟨by omega, doDefault_minted (le_refl n) (by omega)⟩

theorem basicEntries_minted (sac : List String) :
    ∀ (es : List (String × JSVal)) (n : Nat),
    n ≤ (basicEntries sac es n).2.2 ∧
    MintedBetween (basicEntries sac es n).2.1 n (basicEntries sac es n).2.2
  | [], n => ⟨le_refl n, .nil⟩
  | (k, v) :: rest, n => by
    have h1 := basicEntry_minted sac k v n
    have h2 := basicEntries_minted sac rest (basicEntry sac k v n).2.2
    simp only [basicEntries]
    exact ⟨by omega, h1.2.append h2.2 h1.1 h2.1⟩

theorem parseCondBasic_minted {cols : List TableMeta} {cond : JSVal} {n : Nat}
    (h : truthyO (jsGet cond "$statement") = false) :
    n ≤ (parseCondBasic cols cond n).2 ∧
    MintedBetween (parseCondBasic cols cond n).1.params n (parseCondBasic cols cond n).2 := by
  unfold parseCondBasic
  rw [if_neg (by rw [h]; simp)]
  exact basicEntries_minted (strArrayCols cols) (jsEntries cond) n

/-! Unfolding lemmas for the wf-recursive parseCond / noRawV. -/

theorem parseCond_raw {cols : List TableMeta} {q : JSVal} {n : Nat}
    (h1 : truthyO (jsGet q "$statement") = true) :
    parseCond cols q n =
      (⟨jsToString ((jsGet q "$statement").getD JSVal.null),
        match jsGet q "$params" with
        | some v => if truthy v then jsEntries v else []
        | none => []⟩, n) := by
  rw [parseCond]
  rw [if_pos h1]

theorem parseCond_or {cols : List TableMeta} {q : JSVal} {n : Nat} {xs : List JSVal}
    (h1 : truthyO (jsGet q "$statement") = false)
    (h2 : jsGet q "$or" = some (.arr xs)) :
    parseCond cols q n =
      (⟨"(" ++ sepJoin " OR " ((parseCondList cols xs n).1.map ISql.statement) ++ ")",
        ((parseCondList cols xs n).1.map ISql.params).flatten⟩,
       (parseCondList cols xs n).2) := by
  rw [parseCond]
  rw [if_neg (by rw [h1]; simp)]
  split
  · rename_i xs' heq
    rw [h2] at heq
    cases heq
    rfl
  · rename_i hne
    exact absurd h2 (hne xs)

theorem parseCond_and {cols : List TableMeta} {q : JSVal} {n : Nat} {ys : List JSVal}
    (h1 : truthyO (jsGet q "$statement") = false)
    (h2 : ∀ xs, jsGet q "$or" ≠ some (.arr xs))
    (h3 : jsGet q "$and" = some (.arr ys)) :
    parseCond cols q n =
      (⟨"(" ++ sepJoin " AND " ((parseCondList cols ys n).1.map ISql.statement) ++ ")",
        ((parseCondList cols ys n).1.map ISql.params).flatten⟩,
       (parseCondList cols ys n).2) := by
  rw [parseCond]
  rw [if_neg (by rw [h1]; simp)]
  split
  · rename_i xs' heq
    exact absurd heq (h2 xs')
  · split
    · rename_i ys' heq
      rw [h3] at heq
      cases heq
      rfl
    · rename_i hne
      exact absurd h3 (hne ys)

theorem parseCond_basic {cols : List TableMeta} {q : JSVal} {n : Nat}
    (h1 : truthyO (jsGet q "$statement") = false)
    (h2 : ∀ xs, jsGet q "$or" ≠ some (.arr xs))
    (h3 : ∀ ys, jsGet q "$and" ≠ some (.arr ys)) :
    parseCond cols q n =
      (⟨"(" ++ (parseCondBasic cols q n).1.statement ++ ")",
        (parseCondBasic cols q n).1.params⟩, (parseCondBasic cols q n).2) := by
  rw [parseCond]
  rw [if_neg (by rw [h1]; simp)]
  split
  · rename_i xs' heq
    exact absurd heq (h2 xs')
  · split
    · rename_i ys' heq
      exact absurd heq (h3 ys')
    · rfl

theorem parseCondList_nil {cols : List TableMeta} {n : Nat} :
    parseCondList cols [] n = ([], n) := by
  rw [parseCondList]

theorem parseCondList_cons {cols : List TableMeta} {x : JSVal} {rest : List JSVal}
    {n : Nat} :
    parseCondList cols (x :: rest) n =
      ((parseCond cols x n).1 :: (parseCondList cols rest (parseCond cols x n).2).1,
       (parseCondList cols rest (parseCond cols x n).2).2) := by
  rw [parseCondList]

theorem noRawV_not_raw {q : JSVal} (h : noRawV q = true) :
    truthyO (jsGet q "$statement") = false := by
  rw [noRawV] at h
  rw [Bool.and_eq_true] at h
  simpa using h.1

theorem noRawV_or {q : JSVal} {xs : List JSVal} (h : noRawV q = true)
    (h2 : jsGet q "$or" = some (.arr xs)) : noRawL xs = true := by
  rw [noRawV] at h
  rw [Bool.and_eq_true] at h
  have h3 := h.2
  split at h3
  · rename_i xs' heq
    rw [h2] at heq
    cases heq
    exact h3
  · rename_i hne
    exact absurd h2 (hne xs)

theorem noRawV_and {q : JSVal} {ys : List JSVal} (h : noRawV q = true)
    (h2 : ∀ xs, jsGet q "$or" ≠ some (.arr xs))
    (h3 : jsGet q "$and" = some (.arr ys)) : noRawL ys = true := by
  rw [noRawV] at h
  rw [Bool.and_eq_true] at h
  have h4 := h.2
  split at h4
  · rename_i xs' heq
    exact absurd heq (h2 xs')
  · split at h4
    · rename_i ys' heq
      rw [h3] at heq
      cases heq
      exact h4
    · rename_i hne
      exact absurd h3 (hne ys)

theorem noRawL_cons {x : JSVal} {rest : List JSVal} :
    noRawL (x :: rest) = (noRawV x && noRawL rest) := by
  rw [noRawL]

/-- The recursive freshness invariant: a raw-free compilation only consumes
counter tokens forward, and all parameter keys it emits are fresh mints of
that interval, strictly increasing (hence collision-free). -/
theorem parseCond_minted_all : ∀ N : Nat,
    (∀ q : JSVal, sizeOf q ≤ N → ∀ (cols : List TableMeta) (n : Nat),
      noRawV q = true →
      n ≤ (parseCond cols q n).2 ∧
      MintedBetween (parseCond cols q n).1.params n (parseCond cols q n).2) ∧
    (∀ xs : List JSVal, sizeOf xs ≤ N → ∀ (cols : List TableMeta) (n : Nat),
      noRawL xs = true →
      n ≤ (parseCondList cols xs n).2 ∧
      MintedBetween (((parseCondList cols xs n).1.map ISql.params).flatten) n
        (parseCondList cols xs n).2) := by
  intro N
  induction N with
  | zero =>
    constructor
    · intro q hq
      exfalso
      cases q <;> simp at hq
    · intro xs hxs
      exfalso
      cases xs <;> simp at hxs
  | succ N ih =>
    obtain ⟨ihq, ihl⟩ := ih
    constructor
    · intro q hq cols n hnr
      have hraw := noRawV_not_raw hnr
      by_cases hor : ∃ xs, jsGet q "$or" = some (.arr xs)
      · obtain ⟨xs, hor⟩ := hor
        have hxs : sizeOf xs ≤ N := by
          have := jsGet_sizeOf hor
          simp at this
          omega
        have hlist := ihl xs hxs cols n (noRawV_or hnr hor)
        rw [parseCond_or hraw hor]
        exact hlist
      · push_neg at hor
        by_cases hand : ∃ ys, jsGet q "$and" = some (.arr ys)
        · obtain ⟨ys, hand⟩ := hand
          have hys : sizeOf ys ≤ N := by
            have := jsGet_sizeOf hand
            simp at this
            omega
          have hlist := ihl ys hys cols n (noRawV_and hnr hor hand)
          rw [parseCond_and hraw hor hand]
          exact hlist
        · push_neg at hand
          rw [parseCond_basic hraw hor hand]
          exact parseCondBasic_minted hraw
    · intro xs hxs cols n hnr
      cases xs with
      | nil =>
        rw [parseCondList_nil]
        exact ⟨le_refl n, .nil⟩
      | cons x rest =>
        rw [noRawL_cons, Bool.and_eq_true] at hnr
        have hx : sizeOf x ≤ N := by simp at hxs; omega
        have hrest : sizeOf rest ≤ N := by simp at hxs; omega
        have h1 := ihq x hx cols n hnr.1
        have h2 := ihl rest hrest cols (parseCond cols x n).2 hnr.2
        rw [parseCondList_cons]
        dsimp only [List.map_cons, List.flatten_cons]
        exact ⟨by omega, h1.2.append h2.2 h1.1 h2.1⟩

/-- The freshness invariant at the top level. -/
theorem parseCond_minted {cols : List TableMeta} {q : JSVal} {n : Nat}
    (h : noRawV q = true) :
    n ≤ (parseCond cols q n).2 ∧
    MintedBetween (parseCond cols q n).1.params n (parseCond cols q n).2 :=
  (parseCond_minted_all (sizeOf q)).1 q (le_refl _) cols n h

theorem parseCondList_minted {cols : List TableMeta} {xs : List JSVal} {n : Nat}
    (h : noRawL xs = true) :
    n ≤ (parseCondList cols xs n).2 ∧
    MintedBetween (((parseCondList cols xs n).1.map ISql.params).flatten) n
      (parseCondList cols xs n).2 :=
  (parseCond_minted_all (sizeOf xs)).2 xs (le_refl _) cols n h

/-! ### Value-independence of compiled statement text

Erasing every scalar payload (class-preservingly) leaves the compiled
statement text and the final counter unchanged: literal values reach the
statement only through the parameter map. -/

theorem eraseL_eq_map : ∀ xs : List JSVal, eraseL xs = xs.map eraseVal
  | [] => by rw [eraseL]; rfl
  | x :: xs => by rw [eraseL, eraseL_eq_map xs]; rfl

theorem eraseL_length (xs : List JSVal) : (eraseL xs).length = xs.length := by
  rw [eraseL_eq_map]
  simp

theorem truthy_erase : ∀ v : JSVal, truthy (eraseVal v) = truthy v := by
  intro v
  cases v with
  | str s =>
    rw [eraseVal]
    show (String.mk (s.data.map (fun _ => 'v')) != "") = (s != "")
    rcases s with ⟨cs⟩
    cases cs <;> rfl
  | num n =>
    rw [eraseVal]
    by_cases h : n = 0 <;> simp [truthy, h]
  | date ms => rw [eraseVal]; rfl
  | arr xs => rw [eraseVal]; rfl
  | obj fs => rw [eraseVal]; rfl
  | null => rw [eraseVal]
  | bool b => rw [eraseVal]

theorem dateToNum_erase : ∀ v : JSVal,
    dateToNum (eraseVal v) = eraseVal (dateToNum v) := by
  intro v
  cases v with
  | date ms => rw [eraseVal]; rfl
  | null => rfl
  | bool b => rfl
  | num n => rw [eraseVal]; rfl
  | str s => rw [eraseVal]; rfl
  | arr xs => rw [eraseVal]; rfl
  | obj fs => rw [eraseVal]; rfl

theorem assocFind_erase (k : String) : ∀ fs : List (String × JSVal),
    assocFind k (eraseF fs) = (assocFind k fs).map eraseVal
  | [] => by rw [eraseF]; rfl
  | (k', v) :: fs => by
    rw [eraseF]
    by_cases h : k' = k
    · simp [assocFind, h]
    · simp only [assocFind, if_neg h]
      exact assocFind_erase k fs

theorem jsGet_erase (q : JSVal) (k : String) :
    jsGet (eraseVal q) k = (jsGet q k).map eraseVal := by
  cases q with
  | obj fs => rw [eraseVal]; exact assocFind_erase k fs
  | null => rfl
  | bool b => rfl
  | num n => rw [eraseVal]; rfl
  | str s => rw [eraseVal]; rfl
  | date ms => rw [eraseVal]; rfl
  | arr xs => rw [eraseVal]; rfl

theorem truthyO_erase (o : Option JSVal) :
    truthyO (o.map eraseVal) = truthyO o := by
  cases o with
  | none => rfl
  | some v => exact truthy_erase v

theorem eraseF_eq_map : ∀ fs : List (String × JSVal),
    eraseF fs = fs.map (fun p => (p.1, eraseVal p.2))
  | [] => by rw [eraseF]; rfl
  | (k, v) :: fs => by rw [eraseF, eraseF_eq_map fs]; rfl

theorem jsEntries_erase (q : JSVal) :
    jsEntries (eraseVal q) = eraseF (jsEntries q) := by
  cases q with
  | obj fs => rw [eraseVal]; rfl
  | null => rw [eraseVal]; rfl
  | bool b => rw [eraseVal]; cases b <;> rfl
  | num n => rw [eraseVal]; rfl
  | date ms => rw [eraseVal]; rfl
  | arr xs =>
    rw [eraseVal, eraseL_eq_map, eraseF_eq_map]
    show ((xs.map eraseVal).enum.map (fun p => (natStr p.1, p.2))) = _
    rw [List.enum_map]
    simp only [jsEntries, List.map_map]
    rfl
  | str s =>
    rw [eraseVal, eraseF_eq_map]
    show ((s.data.map (fun _ => 'v')).enum.map
      (fun p => (natStr p.1, JSVal.str (String.mk [p.2])))) = _
    rw [List.enum_map]
    simp only [jsEntries, List.map_map]
    apply List.map_congr_left
    intro a _
    show (natStr a.1, JSVal.str (String.mk ['v'])) =
      (natStr a.1, eraseVal (JSVal.str (String.mk [a.2])))
    rw [eraseVal]
    rfl

theorem headVal_erase (fs : List (String × JSVal)) :
    headVal (eraseF fs) = eraseVal (headVal fs) := by
  cases fs with
  | nil => rw [eraseF]; rfl
  | cons kv fs => obtain ⟨k, v⟩ := kv; rw [eraseF]; rfl

theorem headD_fst_erase (fs : List (String × JSVal)) :
    (eraseF fs).head?.map Prod.fst = fs.head?.map Prod.fst := by
  cases fs with
  | nil => rw [eraseF]
  | cons kv fs => obtain ⟨k, v⟩ := kv; rw [eraseF]; rfl

theorem doDefault_stmt (sac : List String) (k : String) (v v' : JSVal)
    (id : String) : (doDefault sac k v id).1 = (doDefault sac k v' id).1 := by
  unfold doDefault
  split <;> rfl

theorem opNormalize_fst_erase (k : String) (v1 : JSVal) :
    (opNormalize k (eraseVal v1)).1 = (opNormalize k v1).1 := by
  unfold opNormalize
  rw [truthy_erase]
  by_cases h : truthy v1 = true
  · rw [if_pos h, if_pos h]
    cases v1 with
    | date ms => rw [eraseVal]
    | obj fs => rw [eraseVal]
    | arr xs => rw [eraseVal]
    | null => rw [eraseVal]
    | bool b => rw [eraseVal]
    | num n => rw [eraseVal]
    | str s => rw [eraseVal]
  · rw [if_neg h, if_neg h]

theorem opNormalize_snd_truthy_erase (k : String) (v1 : JSVal) :
    truthy (opNormalize k (eraseVal v1)).2 = truthy (opNormalize k v1).2 := by
  unfold opNormalize
  rw [truthy_erase]
  by_cases h : truthy v1 = true
  · rw [if_pos h, if_pos h]
    cases v1 with
    | date ms =>
      rw [eraseVal]
      show ((if ms = 0 then (0 : Int) else 1) != 0) = (ms != 0)
      have : truthy (.date ms) = true := rfl
      by_cases hm : ms = 0 <;> simp [hm]
    | obj fs =>
      rw [eraseVal]
      show (jsonStringify (JSVal.obj (eraseF fs)) != "") = (jsonStringify (JSVal.obj fs) != "")
      rw [Bool.eq_iff_iff]
      simp [bne_iff_ne, jsonStringify_ne_empty]
    | arr xs =>
      rw [eraseVal]
      show (jsonStringify (JSVal.arr (eraseL xs)) != "") = (jsonStringify (JSVal.arr xs) != "")
      rw [Bool.eq_iff_iff]
      simp [bne_iff_ne, jsonStringify_ne_empty]
    | null => rw [eraseVal]
    | bool b => rw [eraseVal]
    | num n =>
      rw [eraseVal]
      show ((if n = 0 then (0 : Int) else 1) != 0) = (n != 0)
      by_cases hn : n = 0 <;> simp [hn]
    | str s =>
      rw [eraseVal]
      exact truthy_erase (.str s)
  · rw [if_neg h, if_neg h]
    exact truthy_erase v1

theorem opClause_erase (sac : List String) (k : String) (v v' : JSVal)
    (id : String) (op : Option String) (v1 : JSVal) (n : Nat) :
    (opClause sac k v' id op (eraseVal v1) n).1 = (opClause sac k v id op v1 n).1 ∧
    (opClause sac k v' id op (eraseVal v1) n).2.2 = (opClause sac k v id op v1 n).2.2 := by
  cases op with
  | none => exact ⟨doDefault_stmt sac k v' v id, rfl⟩
  | some s =>
    by_cases h1 : s = "$like"
    · subst h1
      constructor
      · show [(opNormalize k (eraseVal v1)).1 ++ " LIKE " ++ id] =
          [(opNormalize k v1).1 ++ " LIKE " ++ id]
        rw [opNormalize_fst_erase]
      · rfl
    ·
      by_cases h2 : s = "$nlike"
      · subst h2
        constructor
        · show [(opNormalize k (eraseVal v1)).1 ++ " NOT LIKE " ++ id] =
            [(opNormalize k v1).1 ++ " NOT LIKE " ++ id]
          rw [opNormalize_fst_erase]
        · rfl
      ·
        by_cases h3 : s = "$substr"
        · subst h3
          constructor
          · show [(opNormalize k (eraseVal v1)).1 ++ " LIKE '%'||" ++ id ++ "||'%'"] =
              [(opNormalize k v1).1 ++ " LIKE '%'||" ++ id ++ "||'%'"]
            rw [opNormalize_fst_erase]
          · rfl
        ·
          by_cases h4 : s = "$nsubstr"
          · subst h4
            constructor
            · show [(opNormalize k (eraseVal v1)).1 ++ " NOT LIKE '%'||" ++ id ++ "||'%'"] =
                [(opNormalize k v1).1 ++ " NOT LIKE '%'||" ++ id ++ "||'%'"]
              rw [opNormalize_fst_erase]
            · rfl
          ·
            by_cases h5 : s = "$gt"
            · subst h5
              constructor
              · show [(opNormalize k (eraseVal v1)).1 ++ " > " ++ id] =
                  [(opNormalize k v1).1 ++ " > " ++ id]
                rw [opNormalize_fst_erase]
              · rfl
            ·
              by_cases h6 : s = "$gte"
              · subst h6
                constructor
                · show [(opNormalize k (eraseVal v1)).1 ++ " >= " ++ id] =
                    [(opNormalize k v1).1 ++ " >= " ++ id]
                  rw [opNormalize_fst_erase]
                · rfl
              ·
                by_cases h7 : s = "$lt"
                · subst h7
                  constructor
                  · show [(opNormalize k (eraseVal v1)).1 ++ " < " ++ id] =
                      [(opNormalize k v1).1 ++ " < " ++ id]
                    rw [opNormalize_fst_erase]
                  · rfl
                ·
                  by_cases h8 : s = "$lte"
                  · subst h8
                    constructor
                    · show [(opNormalize k (eraseVal v1)).1 ++ " <= " ++ id] =
                        [(opNormalize k v1).1 ++ " <= " ++ id]
                      rw [opNormalize_fst_erase]
                    · rfl
                  ·
                    by_cases h9 : s = "$ne"
                    · subst h9
                      constructor
                      · show [(opNormalize k (eraseVal v1)).1 ++ " != " ++ id] =
                          [(opNormalize k v1).1 ++ " != " ++ id]
                        rw [opNormalize_fst_erase]
                      · rfl
                    ·
                      by_cases hE : s = "$exists"
                      · subst hE
                        constructor
                        · show [(opNormalize k (eraseVal v1)).1 ++ " IS " ++
                            (if truthy (opNormalize k (eraseVal v1)).2 then "NOT NULL" else "NULL")] =
                            [(opNormalize k v1).1 ++ " IS " ++
                            (if truthy (opNormalize k v1).2 then "NOT NULL" else "NULL")]
                          rw [opNormalize_fst_erase, opNormalize_snd_truthy_erase]
                        · rfl
                      · -- unrecognized operator
                        have e1 : opClause sac k v' id (some s) (eraseVal v1) n =
                            ((doDefault sac k v' id).1, (doDefault sac k v' id).2, n) := by
                          unfold opClause
                          split <;> first | rfl | (exfalso; simp_all)
                        have e2 : opClause sac k v id (some s) v1 n =
                            ((doDefault sac k v id).1, (doDefault sac k v id).2, n) := by
                          unfold opClause
                          split <;> first | rfl | (exfalso; simp_all)
                        rw [e1, e2]
                        exact ⟨doDefault_stmt sac k v' v id, rfl⟩


theorem mintLikes_erase (k : String) (xs : List JSVal) (n : Nat) :
    (mintLikes k (eraseL xs) n).1 = (mintLikes k xs n).1 ∧
    (mintLikes k (eraseL xs) n).2.2 = (mintLikes k xs n).2.2 := by
  have h1 := mintLikes_spec k (eraseL xs) n
  have h2 := mintLikes_spec k xs n
  rw [eraseL_length] at h1
  exact ⟨h1.2.2.2.trans h2.2.2.2.symm, h1.2.2.1.trans h2.2.2.1.symm⟩

theorem mintParams_erase (xs : List JSVal) (n : Nat) :
    (mintParams (eraseL xs) n).1.map Prod.fst = (mintParams xs n).1.map Prod.fst ∧
    (mintParams (eraseL xs) n).2 = (mintParams xs n).2 := by
  have h1 := mintParams_spec (eraseL xs) n
  have h2 := mintParams_spec xs n
  rw [eraseL_length] at h1
  exact ⟨h1.1.trans h2.1.symm, h1.2.2.trans h2.2.2.symm⟩

theorem basicEntry_erase (sac : List String) (k0 : String) (v0 : JSVal) (n : Nat) :
    (basicEntry sac k0 (eraseVal v0) n).1 = (basicEntry sac k0 v0 n).1 ∧
    (basicEntry sac k0 (eraseVal v0) n).2.2 = (basicEntry sac k0 v0 n).2.2 := by
  unfold basicEntry
  rw [dateToNum_erase, truthy_erase]
  by_cases ht : truthy (dateToNum v0) = true
  · rw [if_pos ht, if_pos ht]
    cases hd : dateToNum v0 with
    | arr xs =>
      rw [show eraseVal (JSVal.arr xs) = JSVal.arr (eraseL xs) from by rw [eraseVal]]
      dsimp only
      simp only [eraseL_length]
      by_cases hc : sac.contains (condKey k0) = true
      · rw [if_pos hc, if_pos hc]
        dsimp only
        rw [(mintLikes_erase (condKey k0) xs (n + 1)).1,
            (mintLikes_erase (condKey k0) xs (n + 1)).2]
        exact ⟨rfl, rfl⟩
      · rw [if_neg hc, if_neg hc]
        by_cases hl : xs.length > 1
        · rw [if_pos hl, if_pos hl]
          dsimp only
          rw [(mintParams_erase xs (n + 1)).1, (mintParams_erase xs (n + 1)).2]
          exact ⟨rfl, rfl⟩
        · rw [if_neg hl, if_neg hl]
          by_cases h1 : (xs.length == 1) = true
          · rw [if_pos h1, if_pos h1]
            exact ⟨rfl, rfl⟩
          · rw [if_neg h1, if_neg h1]
            exact ⟨rfl, rfl⟩
    | obj fs =>
      rw [show eraseVal (JSVal.obj fs) = JSVal.obj (eraseF fs) from by rw [eraseVal]]
      dsimp only
      rw [headVal_erase, dateToNum_erase, headD_fst_erase]
      cases hw : dateToNum (headVal fs) with
      | arr ys =>
        cases ho : fs.head?.map Prod.fst with
        | some opn =>
          rw [show eraseVal (JSVal.arr ys) = JSVal.arr (eraseL ys) from by rw [eraseVal]]
          dsimp only
          by_cases hin : opn = "$in"
          · rw [if_pos hin, if_pos hin]
            simp only [eraseL_length]
            by_cases hc : sac.contains (condKey k0) = true
            · rw [if_pos hc, if_pos hc]
              dsimp only
              rw [(mintLikes_erase (condKey k0) ys (n + 1)).1,
                  (mintLikes_erase (condKey k0) ys (n + 1)).2]
              exact ⟨rfl, rfl⟩
            · rw [if_neg hc, if_neg hc]
              by_cases hl : ys.length > 1
              · rw [if_pos hl, if_pos hl]
                dsimp only
                rw [(mintParams_erase ys (n + 1)).1, (mintParams_erase ys (n + 1)).2]
                exact ⟨rfl, rfl⟩
              · rw [if_neg hl, if_neg hl]
                by_cases h1 : (ys.length == 1) = true
                · rw [if_pos h1, if_pos h1]
                  exact ⟨rfl, rfl⟩
                · rw [if_neg h1, if_neg h1]
                  exact ⟨rfl, rfl⟩
          · rw [if_neg hin, if_neg hin]
            by_cases hnin : opn = "$nin"
            · rw [if_pos hnin, if_pos hnin]
              simp only [eraseL_length]
              by_cases hl : ys.length > 1
              · rw [if_pos hl, if_pos hl]
                dsimp only
                rw [(mintParams_erase ys (n + 1)).1, (mintParams_erase ys (n + 1)).2]
                exact ⟨rfl, rfl⟩
              · rw [if_neg hl, if_neg hl]
                exact ⟨rfl, rfl⟩
            · rw [if_neg hnin, if_neg hnin]
              have h := opClause_erase sac (condKey k0) (JSVal.obj fs)
                (JSVal.obj (eraseF fs)) (mkParam n) (some opn) (.arr ys) (n + 1)
              rw [show eraseVal (JSVal.arr ys) = JSVal.arr (eraseL ys) from
                by rw [eraseVal]] at h
              exact h
        | none =>
          rw [show eraseVal (JSVal.arr ys) = JSVal.arr (eraseL ys) from by rw [eraseVal]]
          dsimp only
          have h := opClause_erase sac (condKey k0) (JSVal.obj fs)
            (JSVal.obj (eraseF fs)) (mkParam n) none (.arr ys) (n + 1)
          rw [show eraseVal (JSVal.arr ys) = JSVal.arr (eraseL ys) from
            by rw [eraseVal]] at h
          exact h
      | null =>
        rw [show eraseVal JSVal.null = JSVal.null from by rw [eraseVal]]
        dsimp only
        have h := opClause_erase sac (condKey k0) (JSVal.obj fs)
          (JSVal.obj (eraseF fs)) (mkParam n) (fs.head?.map Prod.fst) JSVal.null (n + 1)
        rw [show eraseVal JSVal.null = JSVal.null from by rw [eraseVal]] at h
        exact h
      | bool b =>
        rw [show eraseVal (JSVal.bool b) = JSVal.bool b from by rw [eraseVal]]
        dsimp only
        have h := opClause_erase sac (condKey k0) (JSVal.obj fs)
          (JSVal.obj (eraseF fs)) (mkParam n) (fs.head?.map Prod.fst) (JSVal.bool b) (n + 1)
        rw [show eraseVal (JSVal.bool b) = JSVal.bool b from by rw [eraseVal]] at h
        exact h
      | num m =>
        rw [show eraseVal (JSVal.num m) = JSVal.num (if m = 0 then 0 else 1) from
          by rw [eraseVal]]
        dsimp only
        have h := opClause_erase sac (condKey k0) (JSVal.obj fs)
          (JSVal.obj (eraseF fs)) (mkParam n) (fs.head?.map Prod.fst) (JSVal.num m) (n + 1)
        rw [show eraseVal (JSVal.num m) = JSVal.num (if m = 0 then 0 else 1) from
          by rw [eraseVal]] at h
        exact h
      | str t =>
        rw [show eraseVal (JSVal.str t) =
          JSVal.str (String.mk (t.data.map (fun _ => 'v'))) from by rw [eraseVal]]
        dsimp only
        have h := opClause_erase sac (condKey k0) (JSVal.obj fs)
          (JSVal.obj (eraseF fs)) (mkParam n) (fs.head?.map Prod.fst) (JSVal.str t) (n + 1)
        rw [show eraseVal (JSVal.str t) =
          JSVal.str (String.mk (t.data.map (fun _ => 'v'))) from by rw [eraseVal]] at h
        exact h
      | date ms =>
        rw [show eraseVal (JSVal.date ms) = JSVal.date (if ms = 0 then 0 else 1) from
          by rw [eraseVal]]
        dsimp only
        have h := opClause_erase sac (condKey k0) (JSVal.obj fs)
          (JSVal.obj (eraseF fs)) (mkParam n) (fs.head?.map Prod.fst) (JSVal.date ms) (n + 1)
        rw [show eraseVal (JSVal.date ms) = JSVal.date (if ms = 0 then 0 else 1) from
          by rw [eraseVal]] at h
        exact h
      | obj gs =>
        rw [show eraseVal (JSVal.obj gs) = JSVal.obj (eraseF gs) from by rw [eraseVal]]
        dsimp only
        have h := opClause_erase sac (condKey k0) (JSVal.obj fs)
          (JSVal.obj (eraseF fs)) (mkParam n) (fs.head?.map Prod.fst) (JSVal.obj gs) (n + 1)
        rw [show eraseVal (JSVal.obj gs) = JSVal.obj (eraseF gs) from by rw [eraseVal]] at h
        exact h
    | null =>
      rw [show eraseVal JSVal.null = JSVal.null from by rw [eraseVal]]
      dsimp only
      exact ⟨doDefault_stmt sac (condKey k0) JSVal.null JSVal.null (mkParam n), rfl⟩
    | bool b =>
      rw [show eraseVal (JSVal.bool b) = JSVal.bool b from by rw [eraseVal]]
      dsimp only
      exact ⟨doDefault_stmt sac (condKey k0) (JSVal.bool b) (JSVal.bool b) (mkParam n), rfl⟩
    | num m =>
      rw [show eraseVal (JSVal.num m) = JSVal.num (if m = 0 then 0 else 1) from
        by rw [eraseVal]]
      dsimp only
      exact ⟨doDefault_stmt sac (condKey k0) (JSVal.num (if m = 0 then 0 else 1))
        (JSVal.num m) (mkParam n), rfl⟩
    | str t =>
      rw [show eraseVal (JSVal.str t) =
        JSVal.str (String.mk (t.data.map (fun _ => 'v'))) from by rw [eraseVal]]
      dsimp only
      exact ⟨doDefault_stmt sac (condKey k0)
        (JSVal.str (String.mk (t.data.map (fun _ => 'v')))) (JSVal.str t) (mkParam n), rfl⟩
    | date ms =>
      rw [show eraseVal (JSVal.date ms) = JSVal.date (if ms = 0 then 0 else 1) from
        by rw [eraseVal]]
      dsimp only
      exact ⟨doDefault_stmt sac (condKey k0) (JSVal.date (if ms = 0 then 0 else 1))
        (JSVal.date ms) (mkParam n), rfl⟩
  · rw [if_neg ht, if_neg ht]
    dsimp only
    exact ⟨doDefault_stmt sac (condKey k0) (eraseVal (dateToNum v0)) (dateToNum v0)
      (mkParam n), rfl⟩

theorem basicEntries_erase (sac : List String) :
    ∀ (es : List (String × JSVal)) (n : Nat),
    (basicEntries sac (eraseF es) n).1 = (basicEntries sac es n).1 ∧
    (basicEntries sac (eraseF es) n).2.2 = (basicEntries sac es n).2.2
  | [], n => by rw [eraseF]; exact ⟨rfl, rfl⟩
  | (k, v) :: rest, n => by
    rw [eraseF]
    have h1 := basicEntry_erase sac k v n
    simp only [basicEntries]
    rw [h1.1, h1.2]
    have h2 := basicEntries_erase sac rest (basicEntry sac k v n).2.2
    rw [h2.1, h2.2]
    exact ⟨rfl, rfl⟩


theorem parseCondBasic_erase {cols : List TableMeta} {cond : JSVal} {n : Nat}
    (h : truthyO (jsGet cond "$statement") = false) :
    (parseCondBasic cols (eraseVal cond) n).1.statement =
      (parseCondBasic cols cond n).1.statement ∧
    (parseCondBasic cols (eraseVal cond) n).2 = (parseCondBasic cols cond n).2 := by
  have hE : truthyO (jsGet (eraseVal cond) "$statement") = false := by
    rw [jsGet_erase, truthyO_erase]
    exact h
  unfold parseCondBasic
  rw [if_neg (by rw [hE]; simp), if_neg (by rw [h]; simp)]
  have hb := basicEntries_erase (strArrayCols cols) (jsEntries cond) n
  constructor
  · show (if sepJoin " AND "
        (basicEntries (strArrayCols cols) (jsEntries (eraseVal cond)) n).1 = ""
      then "TRUE" else sepJoin " AND "
        (basicEntries (strArrayCols cols) (jsEntries (eraseVal cond)) n).1) = _
    rw [jsEntries_erase, hb.1]
  · show (basicEntries (strArrayCols cols) (jsEntries (eraseVal cond)) n).2.2 = _
    rw [jsEntries_erase, hb.2]

theorem jsGet_erase_no_arr {q : JSVal} {k : String}
    (h : ∀ xs, jsGet q k ≠ some (.arr xs)) :
    ∀ xs, jsGet (eraseVal q) k ≠ some (.arr xs) := by
  intro xs hc
  rw [jsGet_erase] at hc
  cases hg : jsGet q k with
  | none => rw [hg] at hc; cases hc
  | some v =>
    rw [hg] at hc
    have hc2 : eraseVal v = JSVal.arr xs := by injection hc
    cases v with
    | arr ys => exact h ys hg
    | null => rw [eraseVal] at hc2; cases hc2
    | bool b => rw [eraseVal] at hc2; cases hc2
    | num m => rw [eraseVal] at hc2; cases hc2
    | str t => rw [eraseVal] at hc2; cases hc2
    | date ms => rw [eraseVal] at hc2; cases hc2
    | obj fs => rw [eraseVal] at hc2; cases hc2

theorem parseCond_erase_all : ∀ N : Nat,
    (∀ q : JSVal, sizeOf q ≤ N → ∀ (cols : List TableMeta) (n : Nat),
      noRawV q = true →
      (parseCond cols (eraseVal q) n).1.statement = (parseCond cols q n).1.statement ∧
      (parseCond cols (eraseVal q) n).2 = (parseCond cols q n).2) ∧
    (∀ xs : List JSVal, sizeOf xs ≤ N → ∀ (cols : List TableMeta) (n : Nat),
      noRawL xs = true →
      (parseCondList cols (eraseL xs) n).1.map ISql.statement =
        (parseCondList cols xs n).1.map ISql.statement ∧
      (parseCondList cols (eraseL xs) n).2 = (parseCondList cols xs n).2) := by
  intro N
  induction N with
  | zero =>
    constructor
    · intro q hq
      exfalso
      cases q <;> simp at hq
    · intro xs hxs
      exfalso
      cases xs <;> simp at hxs
  | succ N ih =>
    obtain ⟨ihq, ihl⟩ := ih
    constructor
    · intro q hq cols n hnr
      have hraw := noRawV_not_raw hnr
      have hrawE : truthyO (jsGet (eraseVal q) "$statement") = false := by
        rw [jsGet_erase, truthyO_erase]
        exact hraw
      by_cases hor : ∃ xs, jsGet q "$or" = some (.arr xs)
      · obtain ⟨xs, hor⟩ := hor
        have horE : jsGet (eraseVal q) "$or" = some (.arr (eraseL xs)) := by
          rw [jsGet_erase, hor,
            show Option.map eraseVal (some (JSVal.arr xs)) =
              some (eraseVal (JSVal.arr xs)) from rfl,
            show eraseVal (JSVal.arr xs) = JSVal.arr (eraseL xs) from by rw [eraseVal]]
        have hxs : sizeOf xs ≤ N := by
          have := jsGet_sizeOf hor
          simp at this
          omega
        have hlist := ihl xs hxs cols n (noRawV_or hnr hor)
        rw [parseCond_or hraw hor, parseCond_or hrawE horE]
        dsimp only
        rw [hlist.1, hlist.2]
        exact ⟨rfl, rfl⟩
      · push_neg at hor
        have horE := jsGet_erase_no_arr hor
        by_cases hand : ∃ ys, jsGet q "$and" = some (.arr ys)
        · obtain ⟨ys, hand⟩ := hand
          have handE : jsGet (eraseVal q) "$and" = some (.arr (eraseL ys)) := by
            rw [jsGet_erase, hand,
              show Option.map eraseVal (some (JSVal.arr ys)) =
                some (eraseVal (JSVal.arr ys)) from rfl,
              show eraseVal (JSVal.arr ys) = JSVal.arr (eraseL ys) from by rw [eraseVal]]
          have hys : sizeOf ys ≤ N := by
            have := jsGet_sizeOf hand
            simp at this
            omega
          have hlist := ihl ys hys cols n (noRawV_and hnr hor hand)
          rw [parseCond_and hraw hor hand, parseCond_and hrawE horE handE]
          dsimp only
          rw [hlist.1, hlist.2]
          exact ⟨rfl, rfl⟩
        · push_neg at hand
          have handE := jsGet_erase_no_arr hand
          rw [parseCond_basic hraw hor hand, parseCond_basic hrawE horE handE]
          dsimp only
          have hb := @parseCondBasic_erase cols q n hraw
          rw [hb.1, hb.2]
          exact ⟨rfl, rfl⟩
    · intro xs hxs cols n hnr
      cases xs with
      | nil =>
        rw [eraseL, parseCondList_nil]
        exact ⟨rfl, rfl⟩
      | cons x rest =>
        rw [noRawL_cons, Bool.and_eq_true] at hnr
        have hx : sizeOf x ≤ N := by simp at hxs; omega
        have hrest : sizeOf rest ≤ N := by simp at hxs; omega
        have h1 := ihq x hx cols n hnr.1
        have h2 := ihl rest hrest cols (parseCond cols x n).2 hnr.2
        rw [eraseL, parseCondList_cons, parseCondList_cons]
        dsimp only [List.map_cons]
        rw [h1.1, h1.2, h2.1, h2.2]
        exact ⟨rfl, rfl⟩

/-- The value-independence invariant at the top level: for a raw-free
filter, replacing every scalar payload by its erased representative leaves
the compiled statement text and the final counter untouched. -/
theorem parseCond_erase {cols : List TableMeta} {q : JSVal} {n : Nat}
    (h : noRawV q = true) :
    (parseCond cols (eraseVal q) n).1.statement = (parseCond cols q n).1.statement ∧
    (parseCond cols (eraseVal q) n).2 = (parseCond cols q n).2 :=
  (parseCond_erase_all (sizeOf q)).1 q (le_refl _) cols n h


/-- The create loop's statement-relevant output (keys and minted parameter
names, and the final counter) is independent of the entry's values. -/
theorem createValues_erase (meta : TableMeta) :
    ∀ (es : List (String × JSVal)) (n : Nat),
    (createValues meta (es.map (fun p => (p.1, eraseVal p.2))) n).1 =
      (createValues meta es n).1 ∧
    (createValues meta (es.map (fun p => (p.1, eraseVal p.2))) n).2.1.map Prod.fst =
      (createValues meta es n).2.1.map Prod.fst ∧
    (createValues meta (es.map (fun p => (p.1, eraseVal p.2))) n).2.2 =
      (createValues meta es n).2.2
  | [], n => ⟨rfl, rfl, rfl⟩
  | (k, v) :: rest, n => by
    have ih := createValues_erase meta rest (n + 1)
    simp only [List.map_cons, createValues]
    exact ⟨by rw [ih.1], by simp [ih.2.1], by rw [ih.2.2]⟩

/-- The update SET loop's statement-relevant output (assignment clauses
and the final counter) is independent of the entry's values: the clause
list depends only on which keys have prop rows and on the minted ids. -/
theorem updateSetK_erase (meta : TableMeta) :
    ∀ (es : List (String × JSVal)) (n : Nat),
    (updateSetK meta (es.map (fun p => (p.1, eraseVal p.2))) n).1 =
      (updateSetK meta es n).1 ∧
    (updateSetK meta (es.map (fun p => (p.1, eraseVal p.2))) n).2.2 =
      (updateSetK meta es n).2.2
  | [], n => ⟨rfl, rfl⟩
  | (k, v) :: rest, n => by
    have ih1 := updateSetK_erase meta rest (n + 1)
    have ih0 := updateSetK_erase meta rest n
    simp only [List.map_cons, updateSetK]
    cases hp : lookupFirst k meta.props with
    | none => exact ih0
    | some o =>
      cases o with
      | none => exact ih0
      | some pr => exact ⟨by rw [ih1.1], by rw [ih1.2]⟩

/-- A non-empty string set other than the singleton of the empty string
has a non-empty joined representation. -/
theorem strArray_join_ne {xs : List String} (hne : xs ≠ [])
    (hone : xs ≠ [""]) :
    List.intercalate ['\x1f'] (xs.map String.data) ≠ [] := by
  match xs, hne with
  | [x], _ =>
    have hx : x ≠ "" := fun hh => hone (by rw [hh])
    intro h
    apply hx
    rw [show List.intercalate ['\x1f'] ([x].map String.data) = x.data from by
      simp [List.intercalate]] at h
    cases x with
    | mk cs =>
      cases h
      rfl
  | x :: y :: rest, _ =>
    rw [show List.intercalate ['\x1f'] ((x :: y :: rest).map String.data) =
      x.data ++ '\x1f' :: List.intercalate ['\x1f'] ((y :: rest).map String.data) from by
        simp [List.intercalate, List.intersperse]]
    simp

/-! ### The frozen claims -/

/-- C1 (amended; the original is refuted by C1_cex): on the condition
compilation, INSERT, UPDATE and DELETE paths, literal values reach only
the parameter map: erasing every scalar payload of a raw-free filter and
of the INSERT/UPDATE entry leaves the compiled statement text of each of
the four builders unchanged.  (The original claim is false for DDL
synthesis, where declared defaults are interpolated into the CREATE TABLE
text, and for SELECT, where LIMIT/OFFSET values are interpolated.) -/
theorem C1_thm (cols : List TableMeta) (q : JSVal) (n : Nat)
    (meta : TableMeta) (entry : List (String × JSVal)) (post : List String)
    (m : Nat) (h : noRawV q = true) :
    (parseCond cols (eraseVal q) n).1.statement =
      (parseCond cols q n).1.statement ∧
    (createSql meta (entry.map (fun p => (p.1, eraseVal p.2))) post m).1.statement =
      (createSql meta entry post m).1.statement ∧
    (updateSql meta (eraseVal q) (entry.map (fun p => (p.1, eraseVal p.2)))
        post n).1.statement =
      (updateSql meta q entry post n).1.statement ∧
    (deleteSql meta (eraseVal q) post n).1.statement =
      (deleteSql meta q post n).1.statement := by
  have h2 := @parseCond_erase [meta] q n h
  refine ⟨(parseCond_erase h).1, ?_, ?_, ?_⟩
  · have hc := createValues_erase meta entry m
    show sepJoin " " (["INSERT INTO " ++ safeColumnName meta.name,
        "(" ++ sepJoin ","
          ((createValues meta (entry.map (fun p => (p.1, eraseVal p.2))) m).1.map
            safeColumnName) ++ ")",
        "VALUES (" ++ sepJoin ","
          ((createValues meta (entry.map (fun p => (p.1, eraseVal p.2))) m).2.1.map
            Prod.fst) ++ ")"] ++ post) = _
    rw [hc.1, hc.2.1]
    rfl
  · show sepJoin " " (["UPDATE " ++ safeColumnName meta.name,
        "SET " ++ sepJoin ","
          ((updateSetK meta (entry.map (fun p => (p.1, eraseVal p.2)))
            (parseCond [meta] (eraseVal q) n).2).1.map safeColumnName),
        "WHERE " ++ (parseCond [meta] (eraseVal q) n).1.statement] ++ post) = _
    rw [h2.1, h2.2,
      (updateSetK_erase meta entry (parseCond [meta] q n).2).1]
    rfl
  · show sepJoin " " (["DELETE FROM " ++ safeColumnName meta.name,
        "WHERE " ++ (parseCond [meta] (eraseVal q) n).1.statement] ++ post) = _
    rw [h2.1]
    rfl

/-- C1: witness of the amended theorem at a concrete raw-free filter and
entry. -/
theorem C1_thm_witness :
    (parseCond [] (eraseVal (JSVal.obj [("k", JSVal.num 5)])) 0).1.statement =
      (parseCond [] (JSVal.obj [("k", JSVal.num 5)]) 0).1.statement ∧
    (createSql ⟨"t", []⟩
        ([("a", JSVal.num 7)].map (fun p => (p.1, eraseVal p.2))) [] 0).1.statement =
      (createSql ⟨"t", []⟩ [("a", JSVal.num 7)] [] 0).1.statement ∧
    (updateSql ⟨"t", []⟩ (eraseVal (JSVal.obj [("k", JSVal.num 5)]))
        ([("a", JSVal.num 7)].map (fun p => (p.1, eraseVal p.2))) [] 0).1.statement =
      (updateSql ⟨"t", []⟩ (JSVal.obj [("k", JSVal.num 5)])
        [("a", JSVal.num 7)] [] 0).1.statement ∧
    (deleteSql ⟨"t", []⟩ (eraseVal (JSVal.obj [("k", JSVal.num 5)])) [] 0).1.statement =
      (deleteSql ⟨"t", []⟩ (JSVal.obj [("k", JSVal.num 5)]) [] 0).1.statement :=
  C1_thm [] (JSVal.obj [("k", JSVal.num 5)]) 0 ⟨"t", []⟩ [("a", JSVal.num 7)] [] 0
    (by rw [noRawV]; rfl)

/-- C1 counterexample: a declared string default is interpolated verbatim
into the CREATE TABLE statement text (with empty params), and a LIMIT
value is interpolated into the SELECT text — literal values in statement
text, not bound parameters. -/
theorem C1_cex :
    initSql ⟨⟨"t", [("k", some ⟨some "String", false, false, false, none,
        some (.str "secret")⟩)]⟩, ⟨.pnone, none, false, none⟩, []⟩ =
      ⟨"CREATE TABLE IF NOT EXISTS t (k TEXT  NOT NULL DEFAULT 'secret' )", []⟩ ∧
    (findSql ⟨"t", []⟩ (JSVal.obj []) [] none none (some 7) none 0).1 =
      ⟨"SELECT * FROM t WHERE (TRUE) LIMIT 7", []⟩ := by
  constructor
  · rfl
  · have h1 : truthyO (jsGet (JSVal.obj []) "$statement") = false := rfl
    have hw : parseCond [(⟨"t", []⟩ : TableMeta)] (JSVal.obj []) 0 =
        (⟨"(TRUE)", []⟩, 0) := by
      rw [parseCond_basic h1 (fun xs h => by cases h) (fun ys h => by cases h)]
      rfl
    simp only [findSql]
    rw [hw]
    rfl

/-- C2 (amended; the original is refuted by C2_cex): the condition
compiler is total and never rejects: an operator object whose single key
is not one of the recognized operators falls through to the default
handler, which binds the ENTIRE operator object as the single parameter —
of a plain equality clause on an ordinary column, and of the
delimiter-bounded LIKE clause on a string-set column.  No MalformedFilter
error exists on this path. -/
theorem C2_thm (sac : List String) (k id : String) (v v1 : JSVal)
    (opn : String) (n : Nat)
    (h : opn ∉ ["$like", "$nlike", "$substr", "$nsubstr", "$exists", "$gt",
      "$gte", "$lt", "$lte", "$ne"]) :
    opClause sac k v id (some opn) v1 n =
      (if sac.contains k = true
        then ([k ++ " LIKE '%\x1f'||" ++ id ++ "||'\x1f%'"], [(id, v)], n)
        else ([k ++ " = " ++ id], [(id, v)], n)) := by
  have hd : ((doDefault sac k v id).1, (doDefault sac k v id).2, n) =
      (if sac.contains k = true
        then ([k ++ " LIKE '%\x1f'||" ++ id ++ "||'\x1f%'"], [(id, v)], n)
        else ([k ++ " = " ++ id], [(id, v)], n)) := by
    unfold doDefault
    by_cases hs : sac.contains k = true
    · rw [if_pos hs, if_pos hs]
    · rw [if_neg hs, if_neg hs]
  unfold opClause
  split <;> first
  | (rw [hd])
  | (exfalso; simp_all)

/-- C2: witness of the amended theorem at the unrecognized operator $foo,
on a string-set column and on an ordinary column alike (the if decides
between the two emitted clause shapes). -/
theorem C2_thm_witness :
    opClause ["tags"] "tags" (JSVal.obj [("$foo", JSVal.num 1)]) "$p0"
        (some "$foo") (JSVal.num 1) 1 =
      (if List.contains ["tags"] "tags" = true
        then (["tags" ++ " LIKE '%\x1f'||" ++ "$p0" ++ "||'\x1f%'"],
          [("$p0", JSVal.obj [("$foo", JSVal.num 1)])], 1)
        else (["tags" ++ " = " ++ "$p0"],
          [("$p0", JSVal.obj [("$foo", JSVal.num 1)])], 1)) :=
  C2_thm ["tags"] "tags" "$p0" (JSVal.obj [("$foo", JSVal.num 1)]) (JSVal.num 1)
    "$foo" 1 (by decide)

/-- C2 counterexample: compiling a filter whose field value is the
unrecognized operator object {$foo: 1} produces the SQL predicate
k = $p0 with the whole object bound at $p0 — a compiled predicate, not a
MalformedFilter rejection. -/
theorem C2_cex :
    parseCondBasic [] (JSVal.obj [("k", JSVal.obj [("$foo", JSVal.num 1)])]) 0 =
      (⟨"k = $p0", [("$p0", JSVal.obj [("$foo", JSVal.num 1)])]⟩, 1) := by
  rfl

/-- C3 (amended; the original is refuted by C3_cex): the codec round-trip
law decode(encode(x)) = x holds for timestamps at millisecond precision,
for booleans, for truthy serializable JSON documents, and for string sets
that are non-empty, separator-free and not the singleton of the empty
string — the undocumented exceptions being falsy JSON documents and the
empty or singleton-empty-string set, whose encodings decode to null (see
C3_cex). -/
theorem C3_thm (ms : Int) (b : Bool) (v : JSVal) (xs : List String)
    (ht : truthy v = true) (hs : serializable v = true)
    (hne : xs ≠ []) (hsep : ∀ s ∈ xs, '\x1f' ∉ s.data)
    (hone : xs ≠ [""]) :
    dateGet (dateSet (.date ms)) = .date ms ∧
    boolGet (boolSet (.bool b)) = .bool b ∧
    jsonGet (jsonSet v) = v ∧
    strArrayGet (strArraySet (.arr (xs.map JSVal.str))) = .arr (xs.map JSVal.str) :=
  ⟨date_roundtrip ms, bool_roundtrip b, json_roundtrip ht hs,
   strArray_roundtrip hne hsep (strArray_join_ne hne hone)⟩

/-- C3: witness of the amended round-trip laws at concrete values. -/
theorem C3_thm_witness :
    dateGet (dateSet (.date 5)) = .date 5 ∧
    boolGet (boolSet (.bool true)) = .bool true ∧
    jsonGet (jsonSet (JSVal.num 1)) = JSVal.num 1 ∧
    strArrayGet (strArraySet (.arr (["a"].map JSVal.str))) =
      .arr (["a"].map JSVal.str) :=
  C3_thm 5 true (JSVal.num 1) ["a"] (by decide) (by simp [serializable])
    (by simp) (by decide) (by simp)

/-- C3 counterexample: the JSON codec is truthiness-guarded, so the valid
falsy JSON document false decodes from its encoding to null, not to
itself; likewise the empty string set and the singleton set of the empty
string both decode from their encodings to null, not to themselves. -/
theorem C3_cex :
    jsonGet (jsonSet (JSVal.bool false)) = JSVal.null ∧
    JSVal.null ≠ JSVal.bool false ∧
    strArrayGet (strArraySet (JSVal.arr [])) = JSVal.null ∧
    strArrayGet (strArraySet (JSVal.arr [JSVal.str ""])) = JSVal.null := by
  refine ⟨rfl, fun h => JSVal.noConfusion h, rfl, ?_⟩
  rfl


/-- C4 (confirmed): a filter binding $or (resp. $and) to a sequence of
sub-filters compiles to the recursive sibling compilations joined with OR
(resp. AND) and parenthesized as a group; the merged parameter map is the
concatenation of the sibling maps, its size is the sum of the per-branch
parameter counts, and (for raw-free branches) its parameter names never
collide. -/
theorem C4_thm (cols : List TableMeta) (q : JSVal) (n : Nat) (xs : List JSVal)
    (h1 : truthyO (jsGet q "$statement") = false)
    (h2 : jsGet q "$or" = some (.arr xs))
    (hnr : noRawL xs = true) :
    parseCond cols q n =
      (⟨"(" ++ sepJoin " OR " ((parseCondList cols xs n).1.map ISql.statement) ++ ")",
        ((parseCondList cols xs n).1.map ISql.params).flatten⟩,
       (parseCondList cols xs n).2) ∧
    (parseCond cols q n).1.params.length =
      ((parseCondList cols xs n).1.map (fun s => s.params.length)).sum ∧
    ((parseCond cols q n).1.params.map Prod.fst).Nodup ∧
    (∀ q' ys, truthyO (jsGet q' "$statement") = false →
      (∀ zs, jsGet q' "$or" ≠ some (.arr zs)) →
      jsGet q' "$and" = some (.arr ys) →
      parseCond cols q' n =
        (⟨"(" ++ sepJoin " AND " ((parseCondList cols ys n).1.map ISql.statement) ++ ")",
          ((parseCondList cols ys n).1.map ISql.params).flatten⟩,
         (parseCondList cols ys n).2)) := by
  have hp := @parseCond_or cols q n xs h1 h2
  refine ⟨hp, ?_, ?_, fun q' ys ha hb hc => parseCond_and ha hb hc⟩
  · rw [hp]
    dsimp only
    rw [List.length_flatten]
    rw [List.map_map]
    rfl
  · rw [hp]
    dsimp only
    exact (parseCondList_minted hnr).2.nodup

/-- C4: witness at a concrete two-branch $or filter. -/
theorem C4_thm_witness :
    parseCond [] (JSVal.obj [("$or", JSVal.arr
        [JSVal.obj [("a", JSVal.num 1)], JSVal.obj [("b", JSVal.num 2)]])]) 0 =
      (⟨"(" ++ sepJoin " OR " ((parseCondList []
          [JSVal.obj [("a", JSVal.num 1)], JSVal.obj [("b", JSVal.num 2)]] 0).1.map
          ISql.statement) ++ ")",
        ((parseCondList []
          [JSVal.obj [("a", JSVal.num 1)], JSVal.obj [("b", JSVal.num 2)]] 0).1.map
          ISql.params).flatten⟩,
       (parseCondList []
          [JSVal.obj [("a", JSVal.num 1)], JSVal.obj [("b", JSVal.num 2)]] 0).2) ∧
    (parseCond [] (JSVal.obj [("$or", JSVal.arr
        [JSVal.obj [("a", JSVal.num 1)], JSVal.obj [("b", JSVal.num 2)]])]) 0).1.params.length =
      ((parseCondList []
          [JSVal.obj [("a", JSVal.num 1)], JSVal.obj [("b", JSVal.num 2)]] 0).1.map
          (fun s => s.params.length)).sum ∧
    ((parseCond [] (JSVal.obj [("$or", JSVal.arr
        [JSVal.obj [("a", JSVal.num 1)], JSVal.obj [("b", JSVal.num 2)]])]) 0).1.params.map
        Prod.fst).Nodup ∧
    (∀ q' ys, truthyO (jsGet q' "$statement") = false →
      (∀ zs, jsGet q' "$or" ≠ some (.arr zs)) →
      jsGet q' "$and" = some (.arr ys) →
      parseCond [] q' 0 =
        (⟨"(" ++ sepJoin " AND " ((parseCondList [] ys 0).1.map ISql.statement) ++ ")",
          ((parseCondList [] ys 0).1.map ISql.params).flatten⟩,
         (parseCondList [] ys 0).2)) :=
  C4_thm [] (JSVal.obj [("$or", JSVal.arr
      [JSVal.obj [("a", JSVal.num 1)], JSVal.obj [("b", JSVal.num 2)]])]) 0
    [JSVal.obj [("a", JSVal.num 1)], JSVal.obj [("b", JSVal.num 2)]]
    rfl rfl (by rw [noRawL]; rw [noRawV]; rw [noRawL]; rw [noRawV]; rw [noRawL]; rfl)

/-- C5 (amended; the original is refuted by C5_cex): an empty sequence is
truthy and takes the sequence branch.  On a non-string-set column it
matches neither length test and contributes NO clause (only a spent
counter token), so a filter consisting only of such fields compiles to
the vacuous predicate TRUE with no parameters; on a string-set column it
pushes the degenerate parenthesized clause () with no parameters.  In
neither case is it degraded to the falsy-scalar equality handling. -/
theorem C5_thm (sac : List String) (k0 : String) (n : Nat) :
    truthy (JSVal.arr []) = true ∧
    basicEntry sac k0 (JSVal.arr []) n =
      (if sac.contains (condKey k0) = true then (["()"], [], n + 1)
       else ([], [], n + 1)) ∧
    parseCondBasic [] (JSVal.obj [("j", JSVal.arr [])]) n = (⟨"TRUE", []⟩, n + 1) := by
  refine ⟨rfl, ?_, rfl⟩
  unfold basicEntry
  rw [if_pos (show truthy (dateToNum (JSVal.arr [])) = true from rfl)]
  rw [show dateToNum (JSVal.arr []) = JSVal.arr [] from rfl]
  dsimp only
  by_cases hs : sac.contains (condKey k0) = true
  · rw [if_pos hs, if_pos hs]
    rfl
  · rw [if_neg hs, if_neg hs]
    rfl

/-- C5 counterexample: a field bound to the empty sequence produces the
vacuous predicate TRUE with an empty parameter map — no equality test on
the field, no bound falsy value. -/
theorem C5_cex :
    parseCondBasic [] (JSVal.obj [("k", JSVal.arr [])]) 0 = (⟨"TRUE", []⟩, 1) ∧
    truthy (JSVal.arr []) = true := ⟨rfl, rfl⟩

/-- C6 (confirmed): on a string-set column, any filter value that is a
plain scalar after timestamp normalization (truthy or falsy alike)
compiles to the delimiter-bounded substring match
k LIKE '%<unit-sep>'||$pn||'<unit-sep>%' with the (normalized) scalar
bound as exactly one parameter — never a plain equality. -/
theorem C6_thm (sac : List String) (k0 : String) (v0 : JSVal) (n : Nat)
    (hsac : sac.contains (condKey k0) = true)
    (h2 : ∀ xs, dateToNum v0 ≠ JSVal.arr xs)
    (h3 : ∀ fs, dateToNum v0 ≠ JSVal.obj fs) :
    basicEntry sac k0 v0 n =
      ([condKey k0 ++ " LIKE '%\x1f'||" ++ mkParam n ++ "||'\x1f%'"],
       [(mkParam n, dateToNum v0)], n + 1) := by
  have hd : doDefault sac (condKey k0) (dateToNum v0) (mkParam n) =
      ([condKey k0 ++ " LIKE '%\x1f'||" ++ mkParam n ++ "||'\x1f%'"],
       [(mkParam n, dateToNum v0)]) := by
    unfold doDefault
    rw [if_pos hsac]
  unfold basicEntry
  by_cases ht : truthy (dateToNum v0) = true
  · rw [if_pos ht]
    split
    · rename_i xs heq
      exact absurd heq (h2 xs)
    · rename_i fs heq
      exact absurd heq (h3 fs)
    · rw [hd]
  · rw [if_neg ht]
    rw [hd]

/-- C6: witness on the string-set column tags with the scalar filter
value x. -/
theorem C6_thm_witness :
    basicEntry ["tags"] "tags" (JSVal.str "x") 0 =
      (["tags" ++ " LIKE '%\x1f'||" ++ mkParam 0 ++ "||'\x1f%'"],
       [(mkParam 0, dateToNum (JSVal.str "x"))], 0 + 1) := by
  have h := C6_thm ["tags"] "tags" (JSVal.str "x") 0 (by rfl)
    (fun xs hc => by cases hc) (fun fs hc => by cases hc)
  rw [h]
  rfl

/-- C7 (amended; the original is refuted by C7_cex): on a column that is
NOT of string-set type, a sequence of length ≥ 2 compiles to a membership
(IN) test binding exactly len(v) parameters with distinct fresh names,
and a singleton sequence degrades to an equality test on its single bound
element; string-set columns take a different branch (an AND of
delimiter-bounded LIKE clauses, see the counterexample). -/
theorem C7_thm (sac : List String) (k0 : String) (xs : List JSVal) (x : JSVal)
    (n : Nat) (h : sac.contains (condKey k0) = false) (hlen : 2 ≤ xs.length) :
    (basicEntry sac k0 (JSVal.arr xs) n).1 =
      [condKey k0 ++ " IN (" ++
        sepJoin "," ((List.range' (n + 1) xs.length).map mkParam) ++ ")"] ∧
    (basicEntry sac k0 (JSVal.arr xs) n).2.1.map Prod.snd = xs ∧
    ((basicEntry sac k0 (JSVal.arr xs) n).2.1.map Prod.fst).Nodup ∧
    (basicEntry sac k0 (JSVal.arr xs) n).2.1.length = xs.length ∧
    (basicEntry sac k0 (JSVal.arr xs) n).2.2 = n + 1 + xs.length ∧
    basicEntry sac k0 (JSVal.arr [x]) n =
      ([condKey k0 ++ " = " ++ mkParam (n + 1)], [(mkParam (n + 1), x)], n + 2) := by
  have hb : basicEntry sac k0 (JSVal.arr xs) n =
      ([condKey k0 ++ " IN (" ++
          sepJoin "," ((mintParams xs (n + 1)).1.map Prod.fst) ++ ")"],
       (mintParams xs (n + 1)).1, (mintParams xs (n + 1)).2) := by
    unfold basicEntry
    rw [if_pos (show truthy (dateToNum (JSVal.arr xs)) = true from rfl)]
    rw [show dateToNum (JSVal.arr xs) = JSVal.arr xs from rfl]
    dsimp only
    rw [if_neg (fun hc => by rw [h] at hc; cases hc)]
    rw [if_pos (show xs.length > 1 from by omega)]
  have hs := mintParams_spec xs (n + 1)
  refine ⟨?_, ?_, ?_, ?_, ?_, ?_⟩
  · rw [hb]
    dsimp only
    rw [hs.1]
  · rw [hb]
    exact hs.2.1
  · rw [hb]
    exact (mintParams_minted (le_refl (n + 1))
      (le_refl (n + 1 + xs.length))).nodup
  · rw [hb]
    have := congrArg List.length hs.2.1
    simpa using this
  · rw [hb]
    dsimp only
    rw [hs.2.2]
  · unfold basicEntry
    rw [if_pos (show truthy (dateToNum (JSVal.arr [x])) = true from rfl)]
    rw [show dateToNum (JSVal.arr [x]) = JSVal.arr [x] from rfl]
    dsimp only
    rw [if_neg (fun hc => by rw [h] at hc; cases hc)]
    rw [if_neg (show ¬([x].length > 1) from by simp)]
    rw [if_pos (show ([x].length == 1) = true from rfl)]
    rfl

/-- C7: witness at a concrete 2-element sequence and singleton on a
non-string-set column. -/
theorem C7_thm_witness :
    (basicEntry [] "k" (JSVal.arr [JSVal.num 1, JSVal.num 2]) 0).1 =
      [condKey "k" ++ " IN (" ++
        sepJoin "," ((List.range' (0 + 1) [JSVal.num 1, JSVal.num 2].length).map
          mkParam) ++ ")"] ∧
    (basicEntry [] "k" (JSVal.arr [JSVal.num 1, JSVal.num 2]) 0).2.1.map Prod.snd =
      [JSVal.num 1, JSVal.num 2] ∧
    ((basicEntry [] "k" (JSVal.arr [JSVal.num 1, JSVal.num 2]) 0).2.1.map
      Prod.fst).Nodup ∧
    (basicEntry [] "k" (JSVal.arr [JSVal.num 1, JSVal.num 2]) 0).2.1.length =
      [JSVal.num 1, JSVal.num 2].length ∧
    (basicEntry [] "k" (JSVal.arr [JSVal.num 1, JSVal.num 2]) 0).2.2 =
      0 + 1 + [JSVal.num 1, JSVal.num 2].length ∧
    basicEntry [] "k" (JSVal.arr [JSVal.num 3]) 0 =
      ([condKey "k" ++ " = " ++ mkParam (0 + 1)], [(mkParam (0 + 1), JSVal.num 3)],
       0 + 2) :=
  C7_thm [] "k" [JSVal.num 1, JSVal.num 2] (JSVal.num 3) 0 (by rfl) (by decide)

/-- C7 counterexample: on the string-set column tags, a 2-element
sequence does NOT compile to a membership test: it compiles to a
parenthesized AND of delimiter-bounded LIKE clauses. -/
theorem C7_cex :
    basicEntry ["tags"] "tags" (JSVal.arr [JSVal.str "x", JSVal.str "y"]) 0 =
      (["(tags LIKE '%\x1f'||$p1||'\x1f%' AND tags LIKE '%\x1f'||$p2||'\x1f%')"],
       [("$p1", JSVal.str "x"), ("$p2", JSVal.str "y")], 3) := by
  rfl


/-- C8 (amended; the original is refuted by C8_cex): for every binding
operator ($gt, $gte, $lt, $lte, $ne, $like, $nlike, $substr, $nsubstr), a
date/time operand IS normalized to its numeric epoch-millisecond
representation before being bound as the single parameter, but the
left-hand column reference is NEVER rewritten: the json_extract arm tests
for a Date after the conversion at the head of the operator-object branch
has already replaced it by a number, so that arm is unreachable and the
column reference passes through unchanged.  ($exists binds no parameter
and an unrecognized operator binds the whole un-normalized object, so the
original claim's universal quantification over operator objects fails
there too.) -/
theorem C8_thm (sac : List String) (k0 : String) (ms : Int) (n : Nat)
    (opn mid : String)
    (h : (opn, mid) ∈ [("$gt", " > "), ("$gte", " >= "), ("$lt", " < "),
      ("$lte", " <= "), ("$ne", " != "), ("$like", " LIKE "),
      ("$nlike", " NOT LIKE ")]) :
    basicEntry sac k0 (JSVal.obj [(opn, JSVal.date ms)]) n =
      ([condKey k0 ++ mid ++ mkParam n], [(mkParam n, JSVal.num ms)], n + 1) ∧
    basicEntry sac k0 (JSVal.obj [("$substr", JSVal.date ms)]) n =
      ([condKey k0 ++ " LIKE '%'||" ++ mkParam n ++ "||'%'"],
       [(mkParam n, JSVal.num ms)], n + 1) ∧
    basicEntry sac k0 (JSVal.obj [("$nsubstr", JSVal.date ms)]) n =
      ([condKey k0 ++ " NOT LIKE '%'||" ++ mkParam n ++ "||'%'"],
       [(mkParam n, JSVal.num ms)], n + 1) := by
  have hnorm : opNormalize (condKey k0) (JSVal.num ms) =
      (condKey k0, JSVal.num ms) := by
    unfold opNormalize
    by_cases hh : truthy (JSVal.num ms) = true
    · rw [if_pos hh]
    · rw [if_neg hh]
  refine ⟨?_, ?_, ?_⟩
  · simp only [List.mem_cons, List.mem_singleton, Prod.mk.injEq] at h
    rcases h with hc | hc | hc | hc | hc | hc | hc | hc
    · obtain ⟨rfl, rfl⟩ := hc
      have step : basicEntry sac k0 (JSVal.obj [("$gt", JSVal.date ms)]) n =
          ([(opNormalize (condKey k0) (JSVal.num ms)).1 ++ " > " ++ mkParam n],
           [(mkParam n, (opNormalize (condKey k0) (JSVal.num ms)).2)], n + 1) := rfl
      rw [step, hnorm]
    · obtain ⟨rfl, rfl⟩ := hc
      have step : basicEntry sac k0 (JSVal.obj [("$gte", JSVal.date ms)]) n =
          ([(opNormalize (condKey k0) (JSVal.num ms)).1 ++ " >= " ++ mkParam n],
           [(mkParam n, (opNormalize (condKey k0) (JSVal.num ms)).2)], n + 1) := rfl
      rw [step, hnorm]
    · obtain ⟨rfl, rfl⟩ := hc
      have step : basicEntry sac k0 (JSVal.obj [("$lt", JSVal.date ms)]) n =
          ([(opNormalize (condKey k0) (JSVal.num ms)).1 ++ " < " ++ mkParam n],
           [(mkParam n, (opNormalize (condKey k0) (JSVal.num ms)).2)], n + 1) := rfl
      rw [step, hnorm]
    · obtain ⟨rfl, rfl⟩ := hc
      have step : basicEntry sac k0 (JSVal.obj [("$lte", JSVal.date ms)]) n =
          ([(opNormalize (condKey k0) (JSVal.num ms)).1 ++ " <= " ++ mkParam n],
           [(mkParam n, (opNormalize (condKey k0) (JSVal.num ms)).2)], n + 1) := rfl
      rw [step, hnorm]
    · obtain ⟨rfl, rfl⟩ := hc
      have step : basicEntry sac k0 (JSVal.obj [("$ne", JSVal.date ms)]) n =
          ([(opNormalize (condKey k0) (JSVal.num ms)).1 ++ " != " ++ mkParam n],
           [(mkParam n, (opNormalize (condKey k0) (JSVal.num ms)).2)], n + 1) := rfl
      rw [step, hnorm]
    · obtain ⟨rfl, rfl⟩ := hc
      have step : basicEntry sac k0 (JSVal.obj [("$like", JSVal.date ms)]) n =
          ([(opNormalize (condKey k0) (JSVal.num ms)).1 ++ " LIKE " ++ mkParam n],
           [(mkParam n, (opNormalize (condKey k0) (JSVal.num ms)).2)], n + 1) := rfl
      rw [step, hnorm]
    · obtain ⟨rfl, rfl⟩ := hc
      have step : basicEntry sac k0 (JSVal.obj [("$nlike", JSVal.date ms)]) n =
          ([(opNormalize (condKey k0) (JSVal.num ms)).1 ++ " NOT LIKE " ++ mkParam n],
           [(mkParam n, (opNormalize (condKey k0) (JSVal.num ms)).2)], n + 1) := rfl
      rw [step, hnorm]
    · exact absurd hc (by simp)
  · have step : basicEntry sac k0 (JSVal.obj [("$substr", JSVal.date ms)]) n =
        ([(opNormalize (condKey k0) (JSVal.num ms)).1 ++ " LIKE '%'||" ++
            mkParam n ++ "||'%'"],
         [(mkParam n, (opNormalize (condKey k0) (JSVal.num ms)).2)], n + 1) := rfl
    rw [step, hnorm]
  · have step : basicEntry sac k0 (JSVal.obj [("$nsubstr", JSVal.date ms)]) n =
        ([(opNormalize (condKey k0) (JSVal.num ms)).1 ++ " NOT LIKE '%'||" ++
            mkParam n ++ "||'%'"],
         [(mkParam n, (opNormalize (condKey k0) (JSVal.num ms)).2)], n + 1) := rfl
    rw [step, hnorm]

/-- C8: witness of the amended theorem at the operator $gt. -/
theorem C8_thm_witness :
    basicEntry [] "k" (JSVal.obj [("$gt", JSVal.date 5)]) 0 =
      ([condKey "k" ++ " > " ++ mkParam 0], [(mkParam 0, JSVal.num 5)], 0 + 1) ∧
    basicEntry [] "k" (JSVal.obj [("$substr", JSVal.date 5)]) 0 =
      ([condKey "k" ++ " LIKE '%'||" ++ mkParam 0 ++ "||'%'"],
       [(mkParam 0, JSVal.num 5)], 0 + 1) ∧
    basicEntry [] "k" (JSVal.obj [("$nsubstr", JSVal.date 5)]) 0 =
      ([condKey "k" ++ " NOT LIKE '%'||" ++ mkParam 0 ++ "||'%'"],
       [(mkParam 0, JSVal.num 5)], 0 + 1) :=
  C8_thm [] "k" 5 0 "$gt" " > " (by simp)

/-- C8 counterexample: the comparison {k: {$gt: Date(5ms)}} compiles to
the plain column reference k > $p0 with the numeric 5 bound — the operand
is normalized, but no json_extract sub-field rewrite of the left-hand
side ever happens (that arm is dead code). -/
theorem C8_cex :
    parseCondBasic [] (JSVal.obj [("k", JSVal.obj [("$gt", JSVal.date 5)])]) 0 =
      (⟨"k > $p0", [("$p0", JSVal.num 5)]⟩, 1) := by
  rfl

/-- C9 (amended; the original is refuted by C9_cex): the single-table
row-decode path passes any field with no matching column descriptor
through unmodified, and the join-chain path passes an unmatched COLUMN of
a known table prefix through under that table; but a flat key whose alias
prefix matches NO known table makes the join-chain path throw (reading
__meta of undefined) instead of passing the field through. -/
theorem C9_thm (meta : TableMeta) (kk : String) (v : JSVal)
    (cols : List TableMeta) (c : TableMeta) (k2 k3 : String)
    (h1 : propType meta kk = none)
    (h2 : cols.find? (fun c0 => c0.name == String.mk (splitUU k2.data).headI) =
      some c)
    (h3 : propType c (match (splitUU k2.data).get? 1 with
      | some cs => String.mk cs
      | none => "undefined") = none)
    (h4 : cols.find? (fun c0 => c0.name == String.mk (splitUU k3.data).headI) =
      none) :
    loadField meta kk v = v ∧
    transformRowStep cols [] k2 v =
      .ok [(String.mk (splitUU k2.data).headI,
        [(match (splitUU k2.data).get? 1 with
          | some cs => String.mk cs
          | none => "undefined", v)])] ∧
    transformRowStep cols [] k3 v = .error "TypeError: reading __meta of undefined" := by
  refine ⟨?_, ?_, ?_⟩
  · unfold loadField
    rw [h1]
  · simp only [transformRowStep]
    rw [h2]
    dsimp only
    rw [h3]
    rfl
  · simp only [transformRowStep]
    rw [h4]

/-- C9: witness — an unknown single-table field passes through, a known
table prefix with an unknown column passes through under that table, an
unknown table prefix errors. -/
theorem C9_thm_witness :
    loadField ⟨"m", []⟩ "x" (JSVal.num 1) = JSVal.num 1 ∧
    transformRowStep [⟨"t", []⟩] [] "t__a" (JSVal.num 1) =
      .ok [(String.mk (splitUU "t__a".data).headI,
        [(match (splitUU "t__a".data).get? 1 with
          | some cs => String.mk cs
          | none => "undefined", JSVal.num 1)])] ∧
    transformRowStep [⟨"t", []⟩] [] "z__a" (JSVal.num 1) =
      .error "TypeError: reading __meta of undefined" :=
  C9_thm ⟨"m", []⟩ "x" (JSVal.num 1) [⟨"t", []⟩] ⟨"t", []⟩ "t__a" "z__a"
    (by rfl) (by rfl) (by rfl) (by rfl)

/-- C9 counterexample: a row whose only key has the alias prefix zzz that
matches no known table makes the join-chain decoder throw (reading __meta
of undefined) — the field is not passed through. -/
theorem C9_cex :
    transformRow [⟨"t", []⟩] [("zzz__a", JSVal.num 1)] =
      .error "TypeError: reading __meta of undefined" := by
  rfl

/-- C10 (amended; the original is refuted by C10_cex): provided the raw
$statement escape hatch is falsy/absent, a filter binding $or to a given
branch sequence compiles identically no matter what other keys the object
carries (including $and and flat constraints); likewise, with $or also
absent, a filter binding $and to a given sequence compiles identically no
matter what other keys are present.  ($statement itself is NOT ignored:
it preempts $or, see the counterexample.) -/
theorem C10_thm (cols : List TableMeta) (q q' : JSVal) (n : Nat) (xs : List JSVal)
    (h1 : truthyO (jsGet q "$statement") = false)
    (h1' : truthyO (jsGet q' "$statement") = false)
    (h2 : jsGet q "$or" = some (.arr xs))
    (h2' : jsGet q' "$or" = some (.arr xs)) :
    parseCond cols q n = parseCond cols q' n ∧
    (∀ r r' ys, truthyO (jsGet r "$statement") = false →
      truthyO (jsGet r' "$statement") = false →
      (∀ zs, jsGet r "$or" ≠ some (.arr zs)) →
      (∀ zs, jsGet r' "$or" ≠ some (.arr zs)) →
      jsGet r "$and" = some (.arr ys) →
      jsGet r' "$and" = some (.arr ys) →
      parseCond cols r n = parseCond cols r' n) := by
  constructor
  · rw [parseCond_or h1 h2, parseCond_or h1' h2']
  · intro r r' ys ha ha' hb hb' hc hc'
    rw [parseCond_and ha hb hc, parseCond_and ha' hb' hc']

/-- C10: witness — adding the flat key b to a filter with the same $or
branches leaves the compilation unchanged. -/
theorem C10_thm_witness :
    parseCond [] (JSVal.obj [("$or", JSVal.arr [JSVal.obj [("a", JSVal.num 1)]]),
        ("b", JSVal.num 9)]) 0 =
      parseCond [] (JSVal.obj [("$or", JSVal.arr [JSVal.obj [("a", JSVal.num 1)]])]) 0 ∧
    (∀ r r' ys, truthyO (jsGet r "$statement") = false →
      truthyO (jsGet r' "$statement") = false →
      (∀ zs, jsGet r "$or" ≠ some (.arr zs)) →
      (∀ zs, jsGet r' "$or" ≠ some (.arr zs)) →
      jsGet r "$and" = some (.arr ys) →
      jsGet r' "$and" = some (.arr ys) →
      parseCond [] r 0 = parseCond [] r' 0) :=
  C10_thm [] (JSVal.obj [("$or", JSVal.arr [JSVal.obj [("a", JSVal.num 1)]]),
      ("b", JSVal.num 9)])
    (JSVal.obj [("$or", JSVal.arr [JSVal.obj [("a", JSVal.num 1)]])]) 0
    [JSVal.obj [("a", JSVal.num 1)]] rfl rfl rfl rfl

/-- C10 counterexample: two filters with identical $or branches, one also
carrying a truthy $statement key, compile to different results — the raw
escape hatch preempts $or, so not every other key is ignored. -/
theorem C10_cex :
    parseCond [] (JSVal.obj [("$statement", JSVal.str "RAW"),
        ("$or", JSVal.arr [JSVal.obj [("a", JSVal.num 1)]])]) 0 =
      (⟨"RAW", []⟩, 0) ∧
    parseCond [] (JSVal.obj [("$or", JSVal.arr [JSVal.obj [("a", JSVal.num 1)]])]) 0 =
      (⟨"((a = $p0))", [("$p0", JSVal.num 1)]⟩, 1) := by
  constructor
  · rw [parseCond_raw (by rfl)]
    rfl
  · rw [parseCond_or (by rfl) (by rfl)]
    rw [show parseCondList [] [JSVal.obj [("a", JSVal.num 1)]] 0 =
      ((parseCond [] (JSVal.obj [("a", JSVal.num 1)]) 0).1 ::
        (parseCondList [] []
          (parseCond [] (JSVal.obj [("a", JSVal.num 1)]) 0).2).1,
       (parseCondList [] []
          (parseCond [] (JSVal.obj [("a", JSVal.num 1)]) 0).2).2) from
      parseCondList_cons]
    rw [show parseCond [] (JSVal.obj [("a", JSVal.num 1)]) 0 =
        (⟨"(a = $p0)", [("$p0", JSVal.num 1)]⟩, 1) from by
      rw [parseCond_basic (by rfl) (fun xs h => by cases h)
        (fun ys h => by cases h)]
      rfl]
    rw [parseCondList_nil]
    rfl

end LiteOrm
